import Mathlib

set_option maxHeartbeats 1000000

/-!
Shallow embedding of the fee-backend core (`src/app.py`): month-ledger
normalization, the payment allocator, carry-forward, session-name
derivation, and receipt recording over a per-session store.
-/

/-- A dynamically-typed value, mirroring the JSON-like Python values
(`None`, `bool`, `int`, `str`, `list`, `dict`) that flow through `app.py`.
Dicts are insertion-ordered association lists, as in Python. -/
inductive PyVal where
  | vnone : PyVal
  | vbool (b : Bool) : PyVal
  | vint (n : Int) : PyVal
  | vstr (s : String) : PyVal
  | vlist (l : List PyVal) : PyVal
  | vdict (d : List (String × PyVal)) : PyVal

/-- A Python dict with string keys, as an insertion-ordered association list. -/
abbrev Dict := List (String × PyVal)

/-- Python dict lookup `d[k]` / `d.get(k)`: first binding of `k`. -/
def dget : Dict → String → Option PyVal
  | [], _ => none
  | (k', v) :: d, k => if k' = k then some v else dget d k

/-- Python dict assignment `d[k] = v`: overwrite in place if `k` is bound,
otherwise append (insertion order). -/
def dset : Dict → String → PyVal → Dict
  | [], k, v => [(k, v)]
  | (k', v') :: d, k, v => if k' = k then (k', v) :: d else (k', v') :: dset d k v

/-- Python truthiness for the values we model: `None`, `False`, `0`, `""`,
`[]` and `{}` are falsy, everything else truthy. -/
def pyTruthy : PyVal → Bool
  | .vnone => false
  | .vbool b => b
  | .vint n => n != 0
  | .vstr s => s != ""
  | .vlist l => !l.isEmpty
  | .vdict d => !d.isEmpty

def isPyDigit (c : Char) : Bool := '0' ≤ c && c ≤ '9'

def isPySpace (c : Char) : Bool :=
  c = ' ' || c = '\t' || c = '\n' || c = '\r' || c = '\x0b' || c = '\x0c'

/-- Numeric value of a big-endian list of ASCII digit characters. -/
def digitsVal (l : List Char) : Nat :=
  l.foldl (fun a c => 10 * a + (c.toNat - '0'.toNat)) 0

/-- Python `int(s)` on a string (ASCII fragment): strip surrounding
whitespace, optional sign, then a nonempty run of decimal digits;
anything else raises `ValueError` (modelled as `none`). -/
def pyIntOfString (s : String) : Option Int :=
  let l := ((s.data.dropWhile isPySpace).reverse.dropWhile isPySpace).reverse
  match l with
  | [] => none
  | c :: cs =>
    if c = '-' then
      if cs ≠ [] && cs.all isPyDigit then some (-(digitsVal cs : Int)) else none
    else if c = '+' then
      if cs ≠ [] && cs.all isPyDigit then some (digitsVal cs : Int) else none
    else
      if l.all isPyDigit then some (digitsVal l : Int) else none

/-- Python `int(v)` coercion on a value: ints stay, bools become 0/1,
strings are parsed, everything else raises (modelled as `Except.error`). -/
def pyIntCoerce : PyVal → Except String Int
  | .vint n => .ok n
  | .vbool b => .ok (if b then 1 else 0)
  | .vstr s =>
    match pyIntOfString s with
    | some n => .ok n
    | none => .error "ValueError"
  | .vnone => .error "TypeError"
  | .vlist _ => .error "TypeError"
  | .vdict _ => .error "TypeError"

/-- The idiom `int(v or 0)` from `app.py`: falsy values collapse to `0`
before coercion, so only truthy values can raise. -/
def coerceIntOr0 (v : PyVal) : Except String Int :=
  if pyTruthy v then pyIntCoerce v else .ok 0

/-- The 13 ledger keys in the order `app.py` lays them out and walks them. -/
def monthOrder : List String :=
  ["Jan", "Feb", "Mar", "Apr", "May", "Jun", "Jul", "Aug", "Sep", "Oct",
   "Nov", "Dec", "Annual"]

/-- The zero month record `{"status": "Due", "paid": 0, "due": 0}`. -/
def zeroRec : PyVal :=
  .vdict [("status", .vstr "Due"), ("paid", .vint 0), ("due", .vint 0)]

/-- `default_month_structure()`: all 13 keys mapped to the zero record. -/
def default_month_structure : Dict := monthOrder.map (fun k => (k, zeroRec))

/-- One iteration of the `ensure_months_normalized` loop body for key `k`:
missing or non-dict entries are replaced by a copy of the zero record;
dict entries get `status` defaulted to `"Due"` and `paid`/`due` coerced
with `int(... or 0)` (which can raise, hence `Except`). -/
def normEntry (m : Dict) (k : String) : Except String Dict :=
  match dget m k with
  | none => .ok (dset m k zeroRec)
  | some v =>
    match v with
    | .vdict rd => do
      let st := (dget rd "status").getD (.vstr "Due")
      let p ← coerceIntOr0 ((dget rd "paid").getD (.vint 0))
      let d ← coerceIntOr0 ((dget rd "due").getD (.vint 0))
      .ok (dset m k
        (.vdict (dset (dset (dset rd "status" st) "paid" (.vint p)) "due" (.vint d))))
    | _ => .ok (dset m k zeroRec)

def normKeys : List String → Dict → Except String Dict
  | [], m => .ok m
  | k :: ks, m => do
    let m' ← normEntry m k
    normKeys ks m'

/-- `ensure_months_normalized(months)` from `app.py` (lines 79-92).
The argument models `months` being either absent/falsy (`none`) or a dict. -/
def ensure_months_normalized (months : Option Dict) : Except String Dict :=
  normKeys monthOrder (months.getD [])

/-- `paid` of the entry at key `k`, read defensively (0 when not an int). -/
def entryPaid (m : Dict) (k : String) : Int :=
  match dget m k with
  | some (.vdict rd) =>
    match dget rd "paid" with
    | some (.vint p) => p
    | _ => 0
  | _ => 0

/-- `due` of the entry at key `k`, read defensively (0 when not an int). -/
def entryDue (m : Dict) (k : String) : Int :=
  match dget m k with
  | some (.vdict rd) =>
    match dget rd "due" with
    | some (.vint d) => d
    | _ => 0
  | _ => 0

/-- An entry in the shape `ensure_months_normalized` leaves behind:
a dict with a `status` binding and integer `paid`/`due` bindings. -/
def normedEntry (v : PyVal) : Prop :=
  ∃ rd, v = .vdict rd ∧ (∃ s, dget rd "status" = some s) ∧
    (∃ p : Int, dget rd "paid" = some (.vint p)) ∧
    (∃ d : Int, dget rd "due" = some (.vint d))

/-- The fallback record `{"paid": 0, "due": 0, "status": "Due"}` used by the
allocator loop when a key is missing or falsy. -/
def loopRec : PyVal :=
  .vdict [("paid", .vint 0), ("due", .vint 0), ("status", .vstr "Due")]

/-- The month-walking loop of `apply_payment_to_student_months_and_prev`
(`app.py` lines 605-622): stop when nothing remains, skip entries with
`due <= 0`, otherwise pay `min(remaining, due)`, bump `paid`, lower `due`,
and set `status` to `"Paid"` (clamping `due` to 0) or `"Partial"`. -/
def applyLoop : List String → Dict → Int → Except String (Dict × Int)
  | [], m, r => .ok (m, r)
  | k :: ks, m, r =>
    if r ≤ 0 then .ok (m, r)
    else
      let rec0 := match dget m k with
        | some v => if pyTruthy v then v else loopRec
        | none => loopRec
      match rec0 with
      | .vdict rd =>
        coerceIntOr0 ((dget rd "due").getD (.vint 0)) >>= fun due_amt =>
        if due_amt ≤ 0 then applyLoop ks m r
        else
          let to_pay := min r due_amt
          coerceIntOr0 ((dget rd "paid").getD (.vint 0)) >>= fun p0 =>
          let rd1 := dset rd "paid" (.vint (p0 + to_pay))
          let rd2 := dset rd1 "due" (.vint (due_amt - to_pay))
          let rd3 := if due_amt - to_pay ≤ 0
            then dset (dset rd2 "status" (.vstr "Paid")) "due" (.vint 0)
            else dset rd2 "status" (.vstr "Partial")
          applyLoop ks (dset m k (.vdict rd3)) (r - to_pay)
      | _ => .error "AttributeError"

/-- `apply_payment_to_student_months_and_prev(months, prev_due, payment)`
(`app.py` lines 590-624): normalize the ledger, pay `previous_due` first,
then walk the months in `monthOrder`.  `int(payment or 0)` and
`int(prev_due or 0)` are identities on the `Int`-typed arguments. -/
def apply_payment_to_student_months_and_prev (months : Option Dict)
    (prev_due : Int) (payment : Int) : Except String (Dict × Int × Int) :=
  ensure_months_normalized months >>= fun m =>
  let remaining := payment
  let pay_prev := min remaining prev_due
  applyLoop monthOrder m (remaining - pay_prev) >>= fun mr =>
  .ok (mr.1, prev_due - pay_prev, mr.2)

/-- The ledger of the §8 allocation-order scenario: `Jan.due = Feb.due = 100`,
everything else zero. -/
def scenarioLedger : Dict :=
  [("Jan", .vdict [("status", .vstr "Due"), ("paid", .vint 0), ("due", .vint 100)]),
   ("Feb", .vdict [("status", .vstr "Due"), ("paid", .vint 0), ("due", .vint 100)])] ++
    (monthOrder.drop 2).map (fun k => (k, zeroRec))

/-- The updated month record built by the allocator loop when it pays `t`
into an entry with `paid = p`, `due = d`. -/
def payUpdate (rd : List (String × PyVal)) (p d t : Int) : List (String × PyVal) :=
  if d - t ≤ 0 then
    dset (dset (dset (dset rd "paid" (.vint (p + t)))
      "due" (.vint (d - t))) "status" (.vstr "Paid")) "due" (.vint 0)
  else
    dset (dset (dset rd "paid" (.vint (p + t)))
      "due" (.vint (d - t))) "status" (.vstr "Partial")

/-- Ledger entries at the given keys are records with non-negative integer
`paid` and `due` (the hypothesis all three allocator claims share). -/
def wfKeys (ks : List String) (m : Dict) : Prop :=
  ∀ k ∈ ks, ∃ rd p d, dget m k = some (.vdict rd) ∧
    dget rd "paid" = some (.vint p) ∧ dget rd "due" = some (.vint d) ∧
    0 ≤ p ∧ 0 ≤ d

/-- Decidable form of the allocator claims' hypothesis: a ledger whose 13
entries are records with non-negative integer `paid`/`due`. -/
def entryWFb (v : PyVal) : Bool :=
  match v with
  | .vdict rd =>
    (match dget rd "paid" with
     | some (.vint p) => decide (0 ≤ p)
     | _ => false) &&
    (match dget rd "due" with
     | some (.vint d) => decide (0 ≤ d)
     | _ => false)
  | _ => false

def wfLedger (m : Dict) : Bool :=
  monthOrder.all (fun k =>
    match dget m k with
    | some v => entryWFb v
    | none => false)

/-- The ledger of the §8 allocation scenario after paying 120 against
`priorDue = 50`: Jan partially paid, Feb untouched. -/
def scenarioResult : Dict :=
  [("Jan", .vdict [("status", .vstr "Partial"), ("paid", .vint 70), ("due", .vint 30)]),
   ("Feb", .vdict [("status", .vstr "Due"), ("paid", .vint 0), ("due", .vint 100)])] ++
    (monthOrder.drop 2).map (fun k => (k, zeroRec))

/-- Ledger with only `Jan.due = 100`, for the exact-payoff scenario. -/
def payoffLedger : Dict :=
  [("Jan", .vdict [("status", .vstr "Due"), ("paid", .vint 0), ("due", .vint 100)])] ++
    (monthOrder.drop 1).map (fun k => (k, zeroRec))

/-- `payoffLedger` after an exact payment of 100: Jan fully paid. -/
def payoffResult : Dict :=
  [("Jan", .vdict [("status", .vstr "Paid"), ("paid", .vint 100), ("due", .vint 0)])] ++
    (monthOrder.drop 1).map (fun k => (k, zeroRec))

/-- Input refuting C6 as stated: an extra key beyond the 13 and a negative
`paid` value on `Jan`. -/
def c6Input : Dict := [("Jan", .vdict [("paid", .vint (-5))]), ("Extra", .vnone)]

/-- What `ensure_months_normalized` actually produces on `c6Input`:
14 keys (the stray `"Extra"` survives untouched) and `Jan.paid = -5`. -/
def c6Output : Dict :=
  [("Jan", .vdict [("paid", .vint (-5)), ("status", .vstr "Due"), ("due", .vint 0)]),
   ("Extra", .vnone)] ++ (monthOrder.drop 1).map (fun k => (k, zeroRec))

/-- Python `s.split(sep)` for a one-character separator, over char lists. -/
def pySplit (sep : Char) : List Char → List (List Char)
  | [] => [[]]
  | c :: cs =>
    let r := pySplit sep cs
    if c = sep then [] :: r
    else
      match r with
      | [] => [[c]]
      | h :: t => (c :: h) :: t

/-- Little-endian decimal digits with explicit fuel (structural, so the
kernel can evaluate it). -/
def digitsRevF : Nat → Nat → List Nat
  | 0, _ => []
  | f + 1, n => if n = 0 then [] else n % 10 :: digitsRevF f (n / 10)

/-- Little-endian decimal digits of `n`, with `[0]` for zero. -/
def digitsOf (n : Nat) : List Nat := if n = 0 then [0] else digitsRevF n n

/-- Python `str(n)` for a natural number. -/
def natToString (n : Nat) : String :=
  String.mk ((digitsOf n).reverse.map Nat.digitChar)

/-- Python `str(n)` for an integer. -/
def pyIntRepr (n : Int) : String :=
  if n < 0 then "-" ++ natToString n.natAbs else natToString n.toNat

/-- Python string slicing `s[n:]`. -/
def pyStrDrop (s : String) (n : Nat) : String := String.mk (s.data.drop n)

/-- `get_previous_session_name(session_name)` from `app.py` (lines 39-50):
split on `"_"`, require exactly two parts, parse the FIRST part as an int
(the second part is never parsed), and rebuild
`f"{start-1}_{str(start)[2:]}"`.  Any exception (only the int parse can
raise here) yields `None`. -/
def get_previous_session_name (session_name : String) : Option String :=
  match (pySplit '_' session_name.data).map (fun l => String.mk l) with
  | [p0, _p1] =>
    match pyIntOfString p0 with
    | none => none
    | some start =>
      some (pyIntRepr (start - 1) ++ "_" ++ pyStrDrop (pyIntRepr (start - 1 + 1)) 2)
  | _ => none

/-- A row of the per-session `student` table (`models.py` / raw schema). -/
structure StudentRow where
  name : String
  father : String
  class_name : String
  roll : String
  previous_due : Int
  advance : Int
  months : Dict
  annual_charge : Int

/-- Loop body of `normalize_months_structure` (`app.py` lines 202-218):
each value becomes a fresh `{status, paid, due}` record; `None` and
non-dict values become the zero record; `paid`/`due` are coerced with
`int(... or 0)`. -/
def normalize_months_structure_go : List (String × PyVal) → Dict → Except String Dict
  | [], out => .ok out
  | (k, v) :: rest, out =>
    match v with
    | .vnone => normalize_months_structure_go rest (dset out k zeroRec)
    | .vdict rd =>
      coerceIntOr0 ((dget rd "paid").getD (.vint 0)) >>= fun paid =>
      coerceIntOr0 ((dget rd "due").getD (.vint 0)) >>= fun due =>
      normalize_months_structure_go rest (dset out k
        (.vdict [("status", (dget rd "status").getD (.vstr "Due")),
                 ("paid", .vint paid), ("due", .vint due)]))
    | _ => normalize_months_structure_go rest (dset out k zeroRec)

/-- `normalize_months_structure(months)` from `app.py`: `{}` for falsy
input, otherwise rebuild every entry. -/
def normalize_months_structure (months : Option Dict) : Except String Dict :=
  match months with
  | none => .ok []
  | some d => if d.isEmpty then .ok [] else normalize_months_structure_go d []

/-- The summation loop of `calc_carry_forward_amount`:
`unpaid_sum += int(mrec.get("due", 0) or 0)` over the values. -/
def sumDueVals : Dict → Except String Int
  | [] => .ok 0
  | (_, v) :: rest =>
    match v with
    | .vdict rd =>
      coerceIntOr0 ((dget rd "due").getD (.vint 0)) >>= fun d =>
      sumDueVals rest >>= fun s => .ok (d + s)
    | _ => .error "AttributeError"

/-- `calc_carry_forward_amount(student_row)` from `app.py` (lines 220-235):
normalize the student's months (`student_row.get("months") or {}` is the
`Option`), then sum the monthly `due` values; `previous_due` is never
read. -/
def calc_carry_forward_amount (months : Option Dict) : Except String Int :=
  normalize_months_structure months >>= fun mn => sumDueVals mn

/-- The student record inserted by `copy_students_from_previous` for one
previous-session student (`app.py` lines 296-306 / 315-329): same identity
fields, `previous_due` = carry-forward, `advance = 0`, a freshly normalized
default ledger, `annual_charge = 0`.  `str(roll)` is the identity on our
string-typed `roll`. -/
def carried_student (s : StudentRow) : Except String StudentRow :=
  calc_carry_forward_amount (some s.months) >>= fun carry =>
  ensure_months_normalized (some default_month_structure) >>= fun months0 =>
  .ok { name := s.name, father := s.father, class_name := s.class_name,
        roll := s.roll, previous_due := carry, advance := 0,
        months := months0, annual_charge := 0 }

/-- The per-student loop of `copy_students_from_previous`: skip any student
whose `(class_name, roll)` already exists in the target store, insert the
carried student otherwise. -/
def copy_students : List StudentRow → List StudentRow → Except String (List StudentRow)
  | [], store => .ok store
  | s :: rest, store =>
    if store.any (fun e => e.class_name == s.class_name && e.roll == s.roll) then
      copy_students rest store
    else
      carried_student s >>= fun ns => copy_students rest (store ++ [ns])

/-- `copy_students_from_previous(new_session_name)` (`app.py` lines
237-246 head): derive the previous session name — bail out silently when
that fails — then bail out silently when the previous session's store does
not exist, else read its students and seed the target store.  Store
existence and contents are abstracted by `existing` and
`prev_students_of`. -/
def copy_students_from_previous (new_session_name : String)
    (existing : List String) (prev_students_of : String → List StudentRow)
    (store : List StudentRow) : Except String (List StudentRow) :=
  match get_previous_session_name new_session_name with
  | none => .ok store
  | some prev =>
    if prev ∈ existing then copy_students (prev_students_of prev) store
    else .ok store

/-- The integer `due` of one raw ledger value (0 when absent or the value is
not a record). -/
def entryDueVal : PyVal → Int
  | .vdict rd =>
    match dget rd "due" with
    | some (.vint d) => d
    | _ => 0
  | _ => 0

/-- Sum of the `due` fields across a ledger's entries. -/
def dueSum (m : Dict) : Int := (m.map (fun kv => entryDueVal kv.2)).sum

/-- One ledger value whose `paid`/`due` fields are integers or absent. -/
def entryOkB (v : PyVal) : Bool :=
  match v with
  | .vdict rd =>
    (match dget rd "paid" with
     | some (.vint _) => true
     | none => true
     | _ => false) &&
    (match dget rd "due" with
     | some (.vint _) => true
     | none => true
     | _ => false)
  | _ => true

/-- Ledger entries whose `paid`/`due` fields are integers or absent (the
shape of any ledger the app itself ever stores). -/
def dueValsOk (m : Dict) : Bool := m.all (fun kv => entryOkB kv.2)

/-- The student record that carry-forward inserts for a previous-session
student `s`: identity fields copied, `previous_due` = sum of the ledger's
`due` fields, `advance = 0`, an all-`{Due, 0, 0}` fresh ledger, and
`annual_charge = 0`. -/
def carriedExpected (s : StudentRow) : StudentRow :=
  { name := s.name
    father := s.father
    class_name := s.class_name
    roll := s.roll
    previous_due := dueSum s.months
    advance := 0
    months := default_month_structure
    annual_charge := 0 }

/-- The §8 carry-forward scenario student: `Jan.due = 50`, `Feb` paid off,
`Annual.due = 200`, old `previous_due = 77` (which must not carry). -/
def carryStudent : StudentRow :=
  { name := "A", father := "B", class_name := "5th", roll := "12",
    previous_due := 77, advance := 3,
    months := [("Jan", .vdict [("status", .vstr "Due"), ("paid", .vint 0), ("due", .vint 50)]),
               ("Feb", .vdict [("status", .vstr "Paid"), ("paid", .vint 0), ("due", .vint 0)]),
               ("Annual", .vdict [("status", .vstr "Due"), ("paid", .vint 0), ("due", .vint 200)])],
    annual_charge := 0 }

/-- Value of a little-endian digit list. -/
def ofDigitsRev : List Nat → Nat
  | [] => 0
  | d :: ds => d + 10 * ofDigitsRev ds

/-- Inverse of `Nat.digitChar` on decimal digits. -/
def charToDigit (c : Char) : Nat := c.toNat - '0'.toNat

/-- Characters of Python `f"{n:06d}"` for `n ≥ 0`: the decimal digits,
zero-padded on the left to at least 6 characters. -/
def pad6Chars (n : Nat) : List Char :=
  List.replicate (6 - ((digitsOf n).reverse.map Nat.digitChar).length) '0' ++
    (digitsOf n).reverse.map Nat.digitChar

/-- Python `f"{n:06d}"`. -/
def pyFormat06 (n : Nat) : String := String.mk (pad6Chars n)

/-- `f"{sname}-{cls}-{roll}-{seq:06d}"` from `add_receipt`. -/
def mkReceiptNumber (sname cls roll : String) (seq : Nat) : String :=
  sname ++ "-" ++ cls ++ "-" ++ roll ++ "-" ++ pyFormat06 seq

/-- The JSON payload `/receipt/add` receives (after the required-field
check); `roll` is already `str(...)`-normalized, `months` is raw JSON. -/
structure Payload where
  name : String
  father : String
  class_name : String
  roll : String
  date : String
  totalPaid : Int
  totalDue : Int
  advance : Int
  months : PyVal
  receiptKey : String

/-- A row of the `receipt` table.  `months_json` models the JSON-serialized
months blob by its parsed value (serialization is a bijection we leave
implicit). -/
structure ReceiptRow where
  id : Nat
  name : String
  father : String
  class_name : String
  roll : String
  date : String
  total_paid : Int
  total_due : Int
  advance : Int
  months_json : Dict
  receipt_key : String
  annual_charge : Int
  receipt_number : String

/-- One session's isolated store: its `receipt` and `student` tables. -/
structure Store where
  receipts : List ReceiptRow
  students : List StudentRow

/-- The per-entry record built by the receipt months normalization
(`app.py` lines 648-674): `paid`/`due`/`extra` coerced with plain `int()`
(which raises on failure), `status`/`purpose`/`date` defaulted to `""`. -/
def receiptEntryOfDict (rd : List (String × PyVal)) : Except String PyVal :=
  pyIntCoerce ((dget rd "paid").getD (.vint 0)) >>= fun paid =>
  pyIntCoerce ((dget rd "due").getD (.vint 0)) >>= fun due =>
  pyIntCoerce ((dget rd "extra").getD (.vint 0)) >>= fun extra =>
  .ok (.vdict [("paid", .vint paid), ("due", .vint due),
    ("status", (dget rd "status").getD (.vstr "")),
    ("purpose", (dget rd "purpose").getD (.vstr "")),
    ("extra", .vint extra),
    ("date", (dget rd "date").getD (.vstr ""))])

/-- The fixed record used for non-dict values in the dict-shaped branch. -/
def emptyReceiptEntry : PyVal :=
  .vdict [("paid", .vint 0), ("due", .vint 0), ("status", .vstr ""),
    ("purpose", .vstr ""), ("extra", .vint 0), ("date", .vstr "")]

/-- List-shaped receipt months: entry key is `item.get("month") or
item.get("name")`, falsy keys are skipped.  Truthy non-string keys are not
modelled (the app only ever receives string month names). -/
def normReceiptList : List PyVal → Dict → Except String Dict
  | [], acc => .ok acc
  | item :: rest, acc =>
    match item with
    | .vdict rd =>
      let keyv := if pyTruthy ((dget rd "month").getD .vnone) then
          (dget rd "month").getD .vnone
        else (dget rd "name").getD .vnone
      if pyTruthy keyv then
        match keyv with
        | .vstr s => receiptEntryOfDict rd >>= fun e =>
            normReceiptList rest (dset acc s e)
        | _ => .error "TypeError"
      else normReceiptList rest acc
    | _ => .error "AttributeError"

/-- Dict-shaped receipt months. -/
def normReceiptDict : List (String × PyVal) → Dict → Except String Dict
  | [], acc => .ok acc
  | (k, v) :: rest, acc =>
    match v with
    | .vdict rd => receiptEntryOfDict rd >>= fun e =>
        normReceiptDict rest (dset acc k e)
    | _ => normReceiptDict rest (dset acc k emptyReceiptEntry)

/-- The months normalization at the top of `add_receipt` (`app.py` lines
644-677): list and dict shapes are rebuilt entry by entry, anything else
becomes `{}`. -/
def normalize_receipt_months (raw : PyVal) : Except String Dict :=
  match raw with
  | .vlist items => normReceiptList items []
  | .vdict d => normReceiptDict d []
  | _ => .ok []

/-- `int(months.get("Annual", {}).get("paid", 0))`. -/
def annualPaidOf (nm : Dict) : Except String Int :=
  match dget nm "Annual" with
  | some (.vdict rd) => pyIntCoerce ((dget rd "paid").getD (.vint 0))
  | some _ => .error "AttributeError"
  | none => pyIntCoerce (.vint 0)

/-- The part of `add_receipt` that runs before the duplicate-key check:
months normalization and the `annual_paid` extraction. -/
def addReceiptPrelude (p : Payload) : Except String (Dict × Int) :=
  normalize_receipt_months p.months >>= fun nm =>
  annualPaidOf nm >>= fun a => .ok (nm, a)

def maxReceiptId (rs : List ReceiptRow) : Nat :=
  rs.foldr (fun r a => max r.id a) 0

/-- `(last.id + 1) if last else 1` where `last` is the row with the highest
id (`ORDER BY id DESC LIMIT 1`). -/
def nextSeq (rs : List ReceiptRow) : Nat :=
  match rs with
  | [] => 1
  | _ => maxReceiptId rs + 1

/-- The student UPDATE after a receipt insert: the first `(class_name,
roll)` match (the row `fetchone` returned, updated by its id) gets the new
ledger, previous due and annual charge. -/
def updateStudents (cls roll : String) (nm : Dict) (nprev ac : Int) :
    List StudentRow → List StudentRow
  | [] => []
  | s :: rest =>
    if s.class_name == cls && s.roll == roll then
      { s with previous_due := nprev, months := nm, annual_charge := ac } :: rest
    else s :: updateStudents cls roll nm nprev ac rest

/-- `add_receipt` (`app.py` lines 626-849, the non-HTTP core, identical in
the ORM and raw-SQL branches): normalize the months payload, return the
existing receipt's number when `receiptKey` is already present (store
untouched), otherwise insert a receipt numbered
`f"{session}-{class}-{roll}-{seq:06d}"` with `seq` = highest id + 1
(SQLite assigns the same value as the new row's id), then apply the payment
to the matching student, if any.  The whole operation is transactional:
a failure leaves the store unchanged (`Except.error`). -/
def add_receipt (sname : String) (p : Payload) (st : Store) :
    Except String (Store × String) :=
  addReceiptPrelude p >>= fun na =>
  match st.receipts.find? (fun r => r.receipt_key == p.receiptKey) with
  | some r => .ok (st, r.receipt_number)
  | none =>
    let seq := nextSeq st.receipts
    let rno := mkReceiptNumber sname p.class_name p.roll seq
    let row : ReceiptRow :=
      { id := seq
        name := p.name
        father := p.father
        class_name := p.class_name
        roll := p.roll
        date := p.date
        total_paid := p.totalPaid
        total_due := p.totalDue
        advance := p.advance
        months_json := na.1
        receipt_key := p.receiptKey
        annual_charge := na.2
        receipt_number := rno }
    match st.students.find? (fun s => s.class_name == p.class_name &&
        s.roll == p.roll) with
    | none => .ok ({ receipts := st.receipts ++ [row], students := st.students }, rno)
    | some s =>
      apply_payment_to_student_months_and_prev (some s.months) s.previous_due
          p.totalPaid >>= fun res =>
      annualPaidOf res.1 >>= fun ac =>
      .ok ({ receipts := st.receipts ++ [row]
             students := updateStudents p.class_name p.roll res.1 res.2.1 ac
               st.students }, rno)

/-- `DELETE FROM receipt WHERE id = :rid` (`/receipt/delete/<id>`). -/
def delete_receipt (id : Nat) (st : Store) : Store :=
  { st with receipts := st.receipts.filter (fun r => r.id ≠ id) }

/-- `DELETE FROM receipt` (`/receipt/delete_all`). -/
def delete_all_receipts (st : Store) : Store := { st with receipts := [] }

/-- The store operations C3 quantifies over. -/
inductive StoreOp where
  | addReceipt (p : Payload) : StoreOp
  | deleteReceipt (id : Nat) : StoreOp
  | deleteAllReceipts : StoreOp

/-- Run a sequence of store operations; the second component logs the
receipt number of every receipt actually CREATED (failed requests and
duplicate-key replays create nothing). -/
def runOps (sname : String) : List StoreOp → Store → Store × List String
  | [], st => (st, [])
  | op :: rest, st =>
    match op with
    | .deleteReceipt id => runOps sname rest (delete_receipt id st)
    | .deleteAllReceipts => runOps sname rest (delete_all_receipts st)
    | .addReceipt p =>
      match add_receipt sname p st with
      | .error _ => runOps sname rest st
      | .ok (st1, rno) =>
        let out := runOps sname rest st1
        if (st.receipts.find? (fun r => r.receipt_key == p.receiptKey)).isSome then
          out
        else (out.1, rno :: out.2)

def emptyStore : Store := { receipts := [], students := [] }

/-- First payload of the C3 counterexample run. -/
def cexPayload1 : Payload :=
  { name := "N", father := "F", class_name := "5", roll := "1", date := "d",
    totalPaid := 0, totalDue := 0, advance := 0, months := .vdict [],
    receiptKey := "k1" }

/-- Second payload: a different receipt (different idempotency key), same
student. -/
def cexPayload2 : Payload := { cexPayload1 with receiptKey := "k2" }

/-- Store with one existing receipt, used by the C8 theorems. -/
def c8Row : ReceiptRow :=
  { id := 1
    name := "N"
    father := "F"
    class_name := "5"
    roll := "1"
    date := "d"
    total_paid := 0
    total_due := 0
    advance := 0
    months_json := []
    receipt_key := "k"
    annual_charge := 0
    receipt_number := "2024_25-5-1-000001" }

def c8Store : Store := { receipts := [c8Row], students := [] }

/-- A replayed payload whose `months` carry a non-coercible `paid`. -/
def c8BadPayload : Payload :=
  { name := "N", father := "F", class_name := "5", roll := "1", date := "d",
    totalPaid := 0, totalDue := 0, advance := 0,
    months := .vdict [("Jan", .vdict [("paid", .vstr "abc")])],
    receiptKey := "k" }

/-- Well-formed replay payload for the C8 witness (empty months dict). -/
def c8GoodPayload : Payload :=
  { name := "N", father := "F", class_name := "5", roll := "1", date := "d",
    totalPaid := 0, totalDue := 0, advance := 0, months := .vdict [],
    receiptKey := "k" }

@[simp] theorem dget_nil (k : String) : dget [] k = none := rfl

theorem dget_dset_self (d : Dict) (k : String) (v : PyVal) :
    dget (dset d k v) k = some v := by
  induction d with
  | nil => simp [dget, dset]
  | cons hd tl ih =>
    obtain ⟨k', v'⟩ := hd
    by_cases h : k' = k <;> simp [dget, dset, h, ih]

theorem dget_dset_ne (d : Dict) (k j : String) (v : PyVal) (h : j ≠ k) :
    dget (dset d k v) j = dget d j := by
  induction d with
  | nil => simp [dget, dset, Ne.symm h]
  | cons hd tl ih =>
    obtain ⟨k', v'⟩ := hd
    by_cases hk : k' = k
    · subst hk
      simp [dget, dset, Ne.symm h]
    · simp [dget, dset, hk, ih]

theorem dset_eq_of_get (d : Dict) (k : String) (v : PyVal)
    (h : dget d k = some v) : dset d k v = d := by
  induction d with
  | nil => simp [dget] at h
  | cons hd tl ih =>
    obtain ⟨k', v'⟩ := hd
    by_cases hk : k' = k
    · subst hk
      simp [dget] at h
      simp [dset, h]
    · simp [dget, hk] at h
      simp [dset, hk, ih h]

theorem coerceIntOr0_vint (n : Int) : coerceIntOr0 (.vint n) = .ok n := by
  by_cases h : n = 0 <;> simp [coerceIntOr0, pyTruthy, pyIntCoerce, h]

example : ensure_months_normalized (some []) = .ok default_month_structure := by rfl

example :
    ensure_months_normalized (some [("Jan", .vdict [("paid", .vint 3)])]) =
      .ok ([("Jan", .vdict [("paid", .vint 3), ("status", .vstr "Due"), ("due", .vint 0)])] ++
        (monthOrder.drop 1).map (fun k => (k, zeroRec))) := by rfl

theorem normedEntry_zeroRec : normedEntry zeroRec := by
  refine ⟨_, rfl, ⟨.vstr "Due", ?_⟩, ⟨0, ?_⟩, ⟨0, ?_⟩⟩ <;> rfl

theorem exc_ok_bind {α β ε : Type} (a : α) (f : α → Except ε β) :
    (Except.ok a >>= f) = f a := rfl

theorem exc_error_bind {α β ε : Type} (e : ε) (f : α → Except ε β) :
    ((Except.error e : Except ε α) >>= f) = Except.error e := rfl

theorem normEntry_of_none {m : Dict} {k : String} (h : dget m k = none) :
    normEntry m k = .ok (dset m k zeroRec) := by
  unfold normEntry; rw [h]

theorem normEntry_of_dict {m : Dict} {k : String} {rd : List (String × PyVal)}
    (h : dget m k = some (.vdict rd)) :
    normEntry m k =
      (coerceIntOr0 ((dget rd "paid").getD (.vint 0)) >>= fun p =>
        coerceIntOr0 ((dget rd "due").getD (.vint 0)) >>= fun d =>
        Except.ok (dset m k
          (.vdict (dset (dset (dset rd "status" ((dget rd "status").getD (.vstr "Due")))
            "paid" (.vint p)) "due" (.vint d))))) := by
  unfold normEntry; rw [h]

theorem normEntry_of_scalar {m : Dict} {k : String} {v : PyVal}
    (h : dget m k = some v) (hv : ∀ rd, v ≠ .vdict rd) :
    normEntry m k = .ok (dset m k zeroRec) := by
  unfold normEntry
  rw [h]
  cases v with
  | vdict rd => exact absurd rfl (hv rd)
  | vnone => rfl
  | vbool b => rfl
  | vint n => rfl
  | vstr s => rfl
  | vlist l => rfl

theorem normEntry_post {m m' : Dict} {k : String} (h : normEntry m k = .ok m') :
    (∀ j, j ≠ k → dget m' j = dget m j) ∧
      ∃ v, dget m' k = some v ∧ normedEntry v := by
  cases hg : dget m k with
  | none =>
    rw [normEntry_of_none hg] at h
    cases h
    exact ⟨fun j hj => dget_dset_ne _ _ _ _ hj,
      zeroRec, dget_dset_self _ _ _, normedEntry_zeroRec⟩
  | some v =>
    cases v
    case vdict rd =>
      rw [normEntry_of_dict hg] at h
      cases hp : coerceIntOr0 ((dget rd "paid").getD (.vint 0)) with
      | error e => rw [hp, exc_error_bind] at h; cases h
      | ok p =>
        cases hd : coerceIntOr0 ((dget rd "due").getD (.vint 0)) with
        | error e => rw [hp, exc_ok_bind, hd, exc_error_bind] at h; cases h
        | ok d =>
          rw [hp, exc_ok_bind, hd, exc_ok_bind] at h
          cases h
          refine ⟨fun j hj => dget_dset_ne _ _ _ _ hj, _, dget_dset_self _ _ _, ?_⟩
          refine ⟨_, rfl, ⟨(dget rd "status").getD (.vstr "Due"), ?_⟩, ⟨p, ?_⟩, ⟨d, ?_⟩⟩
          · rw [dget_dset_ne _ _ _ _ (by decide), dget_dset_ne _ _ _ _ (by decide),
              dget_dset_self]
          · rw [dget_dset_ne _ _ _ _ (by decide), dget_dset_self]
          · rw [dget_dset_self]
    all_goals
      rw [normEntry_of_scalar hg (by intro rd hrd; cases hrd)] at h
      cases h
      exact ⟨fun j hj => dget_dset_ne _ _ _ _ hj,
        zeroRec, dget_dset_self _ _ _, normedEntry_zeroRec⟩

theorem normEntry_id {m : Dict} {k : String} {v : PyVal}
    (h : dget m k = some v) (hv : normedEntry v) : normEntry m k = .ok m := by
  obtain ⟨rd, rfl, ⟨s, hs⟩, ⟨p, hp⟩, ⟨d, hd⟩⟩ := hv
  rw [normEntry_of_dict h, hp]
  simp only [Option.getD_some]
  rw [coerceIntOr0_vint, exc_ok_bind, hd]
  simp only [Option.getD_some]
  rw [coerceIntOr0_vint, exc_ok_bind, hs]
  simp only [Option.getD_some]
  rw [dset_eq_of_get _ _ _ hs, dset_eq_of_get _ _ _ hp, dset_eq_of_get _ _ _ hd,
    dset_eq_of_get _ _ _ h]

theorem normKeys_post {ks : List String} :
    ∀ {m m' : Dict}, normKeys ks m = .ok m' →
      (∀ j, j ∉ ks → dget m' j = dget m j) ∧
        (∀ k ∈ ks, ∃ v, dget m' k = some v ∧ normedEntry v) := by
  induction ks with
  | nil =>
    intro m m' h
    cases h
    exact ⟨fun j _ => rfl, fun k hk => absurd hk (List.not_mem_nil k)⟩
  | cons k ks ih =>
    intro m m' h
    unfold normKeys at h
    cases h1 : normEntry m k with
    | error e => rw [h1, exc_error_bind] at h; cases h
    | ok m1 =>
      rw [h1, exc_ok_bind] at h
      obtain ⟨huntouched, v1, hv1, hnorm1⟩ := normEntry_post h1
      obtain ⟨huntouched2, hnormed2⟩ := ih h
      constructor
      · intro j hj
        rw [huntouched2 j (fun hh => hj (List.mem_cons_of_mem _ hh)),
          huntouched j (fun hh => hj (hh ▸ List.mem_cons_self _ _))]
      · intro k0 hk0
        rcases List.mem_cons.mp hk0 with hk0 | hk0
        · subst hk0
          by_cases hmem : k0 ∈ ks
          · exact hnormed2 k0 hmem
          · exact ⟨v1, (huntouched2 k0 hmem).trans hv1, hnorm1⟩
        · exact hnormed2 k0 hk0

theorem normKeys_id {ks : List String} :
    ∀ {m : Dict}, (∀ k ∈ ks, ∃ v, dget m k = some v ∧ normedEntry v) →
      normKeys ks m = .ok m := by
  induction ks with
  | nil => intro m _; rfl
  | cons k ks ih =>
    intro m h
    obtain ⟨v, hv, hnorm⟩ := h k (List.mem_cons_self _ _)
    unfold normKeys
    rw [normEntry_id hv hnorm, exc_ok_bind]
    exact ih (fun k0 hk0 => h k0 (List.mem_cons_of_mem _ hk0))

/-- C7: `ensure_months_normalized` is idempotent.  Normalizing the output of a
successful normalization returns it unchanged (and a failing normalization
composes to the same failure). -/
theorem ensure_months_normalized_idempotent (months : Option Dict) :
    (ensure_months_normalized months >>= fun m =>
      ensure_months_normalized (some m)) = ensure_months_normalized months := by
  cases h : ensure_months_normalized months with
  | error e => rw [exc_error_bind]
  | ok m' =>
    rw [exc_ok_bind]
    have hpost := (@normKeys_post monthOrder (months.getD []) m' h).2
    exact normKeys_id hpost

theorem entryPaid_congr {m1 m2 : Dict} {k : String}
    (h : dget m1 k = dget m2 k) : entryPaid m1 k = entryPaid m2 k := by
  unfold entryPaid; rw [h]

theorem entryDue_congr {m1 m2 : Dict} {k : String}
    (h : dget m1 k = dget m2 k) : entryDue m1 k = entryDue m2 k := by
  unfold entryDue; rw [h]

theorem normEntry_wf {m : Dict} {k : String} {rd : List (String × PyVal)} {p d : Int}
    (hg : dget m k = some (.vdict rd))
    (hp : dget rd "paid" = some (.vint p)) (hd : dget rd "due" = some (.vint d)) :
    ∃ rd', normEntry m k = .ok (dset m k (.vdict rd')) ∧
      dget rd' "paid" = some (.vint p) ∧ dget rd' "due" = some (.vint d) ∧
      ∃ s, dget rd' "status" = some s := by
  rw [normEntry_of_dict hg, hp]
  simp only [Option.getD_some]
  rw [coerceIntOr0_vint, exc_ok_bind, hd]
  simp only [Option.getD_some]
  rw [coerceIntOr0_vint, exc_ok_bind]
  refine ⟨dset (dset (dset rd "status" ((dget rd "status").getD (.vstr "Due")))
    "paid" (.vint p)) "due" (.vint d), rfl, ?_, ?_, ?_⟩
  · rw [dget_dset_ne _ _ _ _ (by decide), dget_dset_self]
  · rw [dget_dset_self]
  · exact ⟨(dget rd "status").getD (.vstr "Due"),
      by rw [dget_dset_ne _ _ _ _ (by decide), dget_dset_ne _ _ _ _ (by decide),
        dget_dset_self]⟩

theorem normKeys_wf {ks : List String} :
    ∀ {m : Dict}, ks.Nodup →
      (∀ k ∈ ks, ∃ rd p d, dget m k = some (.vdict rd) ∧
        dget rd "paid" = some (.vint p) ∧ dget rd "due" = some (.vint d)) →
      ∃ m', normKeys ks m = .ok m' ∧ (∀ j, j ∉ ks → dget m' j = dget m j) ∧
        ∀ k ∈ ks, ∃ rd', dget m' k = some (.vdict rd') ∧
          dget rd' "paid" = some (.vint (entryPaid m k)) ∧
          dget rd' "due" = some (.vint (entryDue m k)) ∧
          ∃ s, dget rd' "status" = some s := by
  induction ks with
  | nil =>
    intro m _ _
    exact ⟨m, rfl, fun j _ => rfl, fun k hk => absurd hk (List.not_mem_nil k)⟩
  | cons k ks ih =>
    intro m hnd hwf
    obtain ⟨rd, p, d, hg, hp, hd⟩ := hwf k (List.mem_cons_self _ _)
    obtain ⟨rd', hentry, hp', hd', s, hs'⟩ := normEntry_wf hg hp hd
    have hknotin : k ∉ ks := (List.nodup_cons.mp hnd).1
    have hm1get : ∀ k0, k0 ≠ k → dget (dset m k (.vdict rd')) k0 = dget m k0 :=
      fun k0 hk0 => dget_dset_ne _ _ _ _ hk0
    have hwf1 : ∀ k0 ∈ ks, ∃ rd0 p0 d0,
        dget (dset m k (.vdict rd')) k0 = some (.vdict rd0) ∧
        dget rd0 "paid" = some (.vint p0) ∧ dget rd0 "due" = some (.vint d0) := by
      intro k0 hk0
      obtain ⟨rd0, p0, d0, h1, h2, h3⟩ := hwf k0 (List.mem_cons_of_mem _ hk0)
      exact ⟨rd0, p0, d0, (hm1get k0 (fun hh => hknotin (hh ▸ hk0))).trans h1, h2, h3⟩
    obtain ⟨m', hrun, huntouched, hkeys⟩ := ih (List.nodup_cons.mp hnd).2 hwf1
    refine ⟨m', ?_, ?_, ?_⟩
    · unfold normKeys
      rw [hentry, exc_ok_bind]
      exact hrun
    · intro j hj
      rw [huntouched j (fun hh => hj (List.mem_cons_of_mem _ hh)),
        hm1get j (fun hh => hj (hh ▸ List.mem_cons_self _ _))]
    · intro k0 hk0
      rcases List.mem_cons.mp hk0 with hk0 | hk0
      · subst hk0
        refine ⟨rd', (huntouched k0 hknotin).trans (dget_dset_self _ _ _), ?_, ?_, s, hs'⟩
        · have : entryPaid m k0 = p := by simp [entryPaid, hg, hp]
          rw [this]; exact hp'
        · have : entryDue m k0 = d := by simp [entryDue, hg, hd]
          rw [this]; exact hd'
      · obtain ⟨rd0, h1, h2, h3, s0, h4⟩ := hkeys k0 hk0
        have hgeq : dget (dset m k (.vdict rd')) k0 = dget m k0 :=
          hm1get k0 (fun hh => hknotin (hh ▸ hk0))
        refine ⟨rd0, h1, ?_, ?_, s0, h4⟩
        · rw [← entryPaid_congr hgeq]; exact h2
        · rw [← entryDue_congr hgeq]; exact h3

example :
    apply_payment_to_student_months_and_prev (some scenarioLedger) 50 120 =
      .ok ([("Jan", .vdict [("status", .vstr "Partial"), ("paid", .vint 70), ("due", .vint 30)]),
        ("Feb", .vdict [("status", .vstr "Due"), ("paid", .vint 0), ("due", .vint 100)])] ++
          (monthOrder.drop 2).map (fun k => (k, zeroRec)), 0, 0) := by rfl

theorem entryPaid_eval {m : Dict} {k : String} {rd : List (String × PyVal)} {p : Int}
    (hg : dget m k = some (.vdict rd)) (hp : dget rd "paid" = some (.vint p)) :
    entryPaid m k = p := by
  simp [entryPaid, hg, hp]

theorem entryDue_eval {m : Dict} {k : String} {rd : List (String × PyVal)} {d : Int}
    (hg : dget m k = some (.vdict rd)) (hd : dget rd "due" = some (.vint d)) :
    entryDue m k = d := by
  simp [entryDue, hg, hd]

theorem applyLoop_stop {k : String} {ks : List String} {m : Dict} {r : Int}
    (h : r ≤ 0) : applyLoop (k :: ks) m r = .ok (m, r) := by
  simp only [applyLoop, if_pos h]

theorem isEmpty_false_of_dget {rd : List (String × PyVal)} {k : String} {v : PyVal}
    (h : dget rd k = some v) : rd.isEmpty = false := by
  cases rd with
  | nil => cases h
  | cons a l => rfl

theorem applyLoop_skip {k : String} {ks : List String} {m : Dict} {r : Int}
    {rd : List (String × PyVal)} {d : Int} (hr : ¬r ≤ 0)
    (hg : dget m k = some (.vdict rd)) (hd : dget rd "due" = some (.vint d))
    (hdle : d ≤ 0) : applyLoop (k :: ks) m r = applyLoop ks m r := by
  simp only [applyLoop, if_neg hr, hg, pyTruthy, isEmpty_false_of_dget hd,
    Bool.not_false, if_pos, hd, Option.getD_some, coerceIntOr0_vint, exc_ok_bind,
    if_pos hdle]

theorem applyLoop_pay {k : String} {ks : List String} {m : Dict} {r : Int}
    {rd : List (String × PyVal)} {p d : Int} (hr : ¬r ≤ 0)
    (hg : dget m k = some (.vdict rd)) (hp : dget rd "paid" = some (.vint p))
    (hd : dget rd "due" = some (.vint d)) (hdgt : ¬d ≤ 0) :
    applyLoop (k :: ks) m r =
      applyLoop ks
        (dset m k (.vdict
          (if d - min r d ≤ 0 then
            dset (dset (dset (dset rd "paid" (.vint (p + min r d)))
              "due" (.vint (d - min r d))) "status" (.vstr "Paid")) "due" (.vint 0)
          else
            dset (dset (dset rd "paid" (.vint (p + min r d)))
              "due" (.vint (d - min r d))) "status" (.vstr "Partial"))))
        (r - min r d) := by
  simp only [applyLoop, if_neg hr, hg, pyTruthy, isEmpty_false_of_dget hd,
    Bool.not_false, hd, Option.getD_some, coerceIntOr0_vint, exc_ok_bind,
    if_neg hdgt, hp, if_pos]

theorem applyLoop_pay2 {k : String} {ks : List String} {m : Dict} {r : Int}
    {rd : List (String × PyVal)} {p d : Int} (hr : ¬r ≤ 0)
    (hg : dget m k = some (.vdict rd)) (hp : dget rd "paid" = some (.vint p))
    (hd : dget rd "due" = some (.vint d)) (hdgt : ¬d ≤ 0) :
    applyLoop (k :: ks) m r =
      applyLoop ks (dset m k (.vdict (payUpdate rd p d (min r d)))) (r - min r d) := by
  rw [applyLoop_pay hr hg hp hd hdgt]; rfl

theorem payUpdate_paid (rd : List (String × PyVal)) (p d t : Int) :
    dget (payUpdate rd p d t) "paid" = some (.vint (p + t)) := by
  unfold payUpdate
  by_cases h : d - t ≤ 0
  · rw [if_pos h, dget_dset_ne _ _ _ _ (by decide), dget_dset_ne _ _ _ _ (by decide),
      dget_dset_ne _ _ _ _ (by decide), dget_dset_self]
  · rw [if_neg h, dget_dset_ne _ _ _ _ (by decide), dget_dset_ne _ _ _ _ (by decide),
      dget_dset_self]

theorem payUpdate_due (rd : List (String × PyVal)) (p d t : Int) (h0 : t ≤ d) :
    dget (payUpdate rd p d t) "due" = some (.vint (d - t)) := by
  unfold payUpdate
  by_cases h : d - t ≤ 0
  · rw [if_pos h, dget_dset_self]
    have hdt : d - t = 0 := by omega
    rw [hdt]
  · rw [if_neg h, dget_dset_ne _ _ _ _ (by decide), dget_dset_self]

theorem sum_map_congr : ∀ {l : List String} {f g : String → Int},
    (∀ x ∈ l, f x = g x) → (l.map f).sum = (l.map g).sum := by
  intro l
  induction l with
  | nil => intro f g _; rfl
  | cons a l ih =>
    intro f g h
    simp only [List.map_cons, List.sum_cons, h a (List.mem_cons_self _ _),
      ih (fun x hx => h x (List.mem_cons_of_mem _ hx))]

theorem applyLoop_spec {ks : List String} :
    ∀ {m : Dict} {r : Int}, ks.Nodup → wfKeys ks m → 0 ≤ r →
      ∃ m' r', applyLoop ks m r = .ok (m', r') ∧ 0 ≤ r' ∧ r' ≤ r ∧
        (∀ j, j ∉ ks → dget m' j = dget m j) ∧
        (ks.map (entryPaid m')).sum - (ks.map (entryPaid m)).sum = r - r' ∧
        ∀ k ∈ ks, entryPaid m k ≤ entryPaid m' k ∧ entryDue m' k ≤ entryDue m k ∧
          0 ≤ entryDue m' k ∧ (entryDue m k = 0 → dget m' k = dget m k) := by
  induction ks with
  | nil =>
    intro m r _ _ hr
    exact ⟨m, r, rfl, hr, le_refl r, fun j _ => rfl, by simp,
      fun k hk => absurd hk (List.not_mem_nil k)⟩
  | cons k ks ih =>
    intro m r hnd hwf hr
    obtain ⟨rd, p, d, hg, hp, hd, hpn, hdn⟩ := hwf k (List.mem_cons_self _ _)
    have hknotin : k ∉ ks := (List.nodup_cons.mp hnd).1
    by_cases hstop : r ≤ 0
    · refine ⟨m, r, applyLoop_stop hstop, hr, le_refl r, fun j _ => rfl, by simp, ?_⟩
      intro k0 hk0
      obtain ⟨rd0, p0, d0, hg0, hp0, hd0, _, hd0n⟩ := hwf k0 hk0
      exact ⟨le_refl _, le_refl _, by rw [entryDue_eval hg0 hd0]; exact hd0n,
        fun _ => rfl⟩
    · by_cases hskip : d ≤ 0
      · have heq := @applyLoop_skip k ks m r rd d hstop hg hd hskip
        have hwftail : wfKeys ks m := fun k0 hk0 => hwf k0 (List.mem_cons_of_mem _ hk0)
        obtain ⟨m', r', hrun, h0, hle, hunt, hsum, hkeys⟩ :=
          ih (List.nodup_cons.mp hnd).2 hwftail hr
        have hmk : dget m' k = dget m k := hunt k hknotin
        refine ⟨m', r', heq.trans hrun, h0, hle, ?_, ?_, ?_⟩
        · intro j hj; exact hunt j (fun hh => hj (List.mem_cons_of_mem _ hh))
        · simp only [List.map_cons, List.sum_cons, entryPaid_congr hmk]
          omega
        · intro k0 hk0
          rcases List.mem_cons.mp hk0 with hk0 | hk0
          · subst hk0
            refine ⟨(entryPaid_congr hmk).ge, (entryDue_congr hmk).le, ?_, fun _ => hmk⟩
            rw [entryDue_congr hmk, entryDue_eval hg hd]
            omega
          · exact hkeys k0 hk0
      · have htd : min r d ≤ d := min_le_right r d
        have htr : min r d ≤ r := min_le_left r d
        have ht0 : 0 < min r d := lt_min (by omega) (by omega)
        have heq := @applyLoop_pay2 k ks m r rd p d hstop hg hp hd hskip
        have hm1k : dget (dset m k (.vdict (payUpdate rd p d (min r d)))) k =
            some (.vdict (payUpdate rd p d (min r d))) := dget_dset_self _ _ _
        have hm1o : ∀ j, j ≠ k →
            dget (dset m k (.vdict (payUpdate rd p d (min r d)))) j = dget m j :=
          fun j hj => dget_dset_ne _ _ _ _ hj
        have hwf1 : wfKeys ks (dset m k (.vdict (payUpdate rd p d (min r d)))) := by
          intro k0 hk0
          obtain ⟨rd0, p0, d0, h1, h2, h3, h4, h5⟩ :=
            hwf k0 (List.mem_cons_of_mem _ hk0)
          exact ⟨rd0, p0, d0,
            (hm1o k0 (fun hh => hknotin (hh ▸ hk0))).trans h1, h2, h3, h4, h5⟩
        obtain ⟨m', r', hrun, h0, hle, hunt, hsum, hkeys⟩ :=
          ih (List.nodup_cons.mp hnd).2 hwf1 (by omega : (0:Int) ≤ r - min r d)
        have hm'k : dget m' k = some (.vdict (payUpdate rd p d (min r d))) :=
          (hunt k hknotin).trans hm1k
        have hpm' : entryPaid m' k = p + min r d :=
          entryPaid_eval hm'k (payUpdate_paid rd p d (min r d))
        have hdm' : entryDue m' k = d - min r d :=
          entryDue_eval hm'k (payUpdate_due rd p d (min r d) htd)
        have hpm : entryPaid m k = p := entryPaid_eval hg hp
        have hdm : entryDue m k = d := entryDue_eval hg hd
        have hsame : ∀ k0 ∈ ks,
            dget (dset m k (.vdict (payUpdate rd p d (min r d)))) k0 = dget m k0 :=
          fun k0 hk0 => hm1o k0 (fun hh => hknotin (hh ▸ hk0))
        refine ⟨m', r', heq.trans hrun, h0, by omega, ?_, ?_, ?_⟩
        · intro j hj
          rw [hunt j (fun hh => hj (List.mem_cons_of_mem _ hh)),
            hm1o j (fun hh => hj (hh ▸ List.mem_cons_self _ _))]
        · have htailsum :
              (ks.map (entryPaid (dset m k (.vdict (payUpdate rd p d (min r d)))))).sum =
                (ks.map (entryPaid m)).sum :=
            sum_map_congr (fun k0 hk0 => entryPaid_congr (hsame k0 hk0))
          simp only [List.map_cons, List.sum_cons, hpm', hpm]
          omega
        · intro k0 hk0
          rcases List.mem_cons.mp hk0 with hk0 | hk0
          · subst hk0
            refine ⟨by omega, by omega, by omega, ?_⟩
            intro hdz
            rw [hdm] at hdz
            exact absurd hdz (by omega)
          · obtain ⟨ha, hb, hc, hdz⟩ := hkeys k0 hk0
            have hcongrp := entryPaid_congr (hsame k0 hk0)
            have hcongrd := entryDue_congr (hsame k0 hk0)
            refine ⟨by omega, by omega, hc, ?_⟩
            intro hz
            rw [← hcongrd] at hz
            exact (hdz hz).trans (hsame k0 hk0)

theorem wfKeys_of_wfLedger {m : Dict} (h : wfLedger m = true) : wfKeys monthOrder m := by
  intro k hk
  have h2 := (List.all_eq_true.mp h) k hk
  cases hg : dget m k with
  | none => rw [hg] at h2; cases h2
  | some v =>
    rw [hg] at h2
    cases v
    case vdict rd =>
      simp only [entryWFb, Bool.and_eq_true] at h2
      obtain ⟨h2p, h2d⟩ := h2
      cases hpg : dget rd "paid" with
      | none => rw [hpg] at h2p; cases h2p
      | some pv =>
        rw [hpg] at h2p
        cases pv <;> try (cases h2p)
        case vint p =>
          cases hdg : dget rd "due" with
          | none => rw [hdg] at h2d; cases h2d
          | some dv =>
            rw [hdg] at h2d
            cases dv <;> try (cases h2d)
            case vint d =>
              exact ⟨rd, p, d, rfl, hpg, hdg, of_decide_eq_true h2p,
                of_decide_eq_true h2d⟩
    all_goals (simp only [entryWFb] at h2; cases h2)

/-- Shared workhorse for the allocator claims: on a well-formed ledger with
non-negative prior due and payment, the allocator succeeds and satisfies
conservation, sign and monotonicity facts simultaneously. -/
theorem apply_payment_main (m : Dict) (prev payment : Int)
    (hwfb : wfLedger m = true) (hprev : 0 ≤ prev) (hpay : 0 ≤ payment) :
    ∃ m' prev2 rem,
      apply_payment_to_student_months_and_prev (some m) prev payment =
        .ok (m', prev2, rem) ∧
      ((monthOrder.map (entryPaid m')).sum - (monthOrder.map (entryPaid m)).sum) +
        (prev - prev2) + rem = payment ∧
      0 ≤ prev2 ∧ prev2 ≤ prev ∧ 0 ≤ rem ∧ rem ≤ payment ∧
      (∀ k ∈ monthOrder, entryPaid m k ≤ entryPaid m' k ∧
        entryDue m' k ≤ entryDue m k ∧ 0 ≤ entryDue m' k) ∧
      (∀ j, j ∉ monthOrder → dget m' j = dget m j) := by
  have hwf : wfKeys monthOrder m := wfKeys_of_wfLedger hwfb
  have hnodup : monthOrder.Nodup := by decide
  obtain ⟨m0, hnorm, hunt0, hkeys0⟩ := normKeys_wf hnodup
    (fun k hk => by
      obtain ⟨rd, p, d, h1, h2, h3, _, _⟩ := hwf k hk
      exact ⟨rd, p, d, h1, h2, h3⟩)
  have hpaid0 : ∀ k ∈ monthOrder, entryPaid m0 k = entryPaid m k := by
    intro k hk
    obtain ⟨rd', h1, h2, _, _⟩ := hkeys0 k hk
    exact entryPaid_eval h1 h2
  have hdue0 : ∀ k ∈ monthOrder, entryDue m0 k = entryDue m k := by
    intro k hk
    obtain ⟨rd', h1, _, h3, _⟩ := hkeys0 k hk
    exact entryDue_eval h1 h3
  have hwf0 : wfKeys monthOrder m0 := by
    intro k hk
    obtain ⟨rd', h1, h2, h3, _⟩ := hkeys0 k hk
    obtain ⟨rd, p, d, hg, hp, hd, hpn, hdn⟩ := hwf k hk
    refine ⟨rd', entryPaid m k, entryDue m k, h1, h2, h3, ?_, ?_⟩
    · rw [entryPaid_eval hg hp]; exact hpn
    · rw [entryDue_eval hg hd]; exact hdn
  have hmn1 : min payment prev ≤ payment := min_le_left _ _
  have hmn2 : min payment prev ≤ prev := min_le_right _ _
  have hmn0 : 0 ≤ min payment prev := le_min hpay hprev
  obtain ⟨m', r', hrun, h0, hle, hunt, hsum, hkeys⟩ :=
    applyLoop_spec hnodup hwf0 (by omega : (0:Int) ≤ payment - min payment prev)
  have hsum0 : (monthOrder.map (entryPaid m0)).sum = (monthOrder.map (entryPaid m)).sum :=
    sum_map_congr (fun k hk => hpaid0 k hk)
  refine ⟨m', prev - min payment prev, r', ?_, ?_, by omega, by omega, h0, by omega,
    ?_, ?_⟩
  · show (ensure_months_normalized (some m) >>= fun mm =>
      applyLoop monthOrder mm (payment - min payment prev) >>= fun mr =>
      .ok (mr.1, prev - min payment prev, mr.2)) = _
    rw [show ensure_months_normalized (some m) = .ok m0 from hnorm, exc_ok_bind,
      hrun, exc_ok_bind]
  · omega
  · intro k hk
    obtain ⟨ha, hb, hc, _⟩ := hkeys k hk
    have e1 := hpaid0 k hk
    have e2 := hdue0 k hk
    exact ⟨by omega, by omega, hc⟩
  · intro j hj
    rw [hunt j hj, hunt0 j hj]

theorem normKeys_preserve_normed {ks : List String} :
    ∀ {m m0 : Dict} {k : String} {v : PyVal}, dget m k = some v → normedEntry v →
      normKeys ks m = .ok m0 → dget m0 k = dget m k := by
  induction ks with
  | nil =>
    intro m m0 k v _ _ h
    cases h
    rfl
  | cons k0 ks ih =>
    intro m m0 k v hget hnorm h
    unfold normKeys at h
    cases h1 : normEntry m k0 with
    | error e => rw [h1, exc_error_bind] at h; cases h
    | ok m1 =>
      rw [h1, exc_ok_bind] at h
      by_cases hk : k0 = k
      · subst hk
        rw [normEntry_id hget hnorm] at h1
        cases h1
        exact ih hget hnorm h
      · have hsame : dget m1 k = dget m k := (normEntry_post h1).1 k (Ne.symm hk)
        exact ((ih (hsame.trans hget) hnorm h).trans hsame)

/-- Helper for the skip-untouched part of C2: an in-claim-shape entry whose
`due` is already 0 survives the whole allocator unchanged (status included). -/
theorem apply_payment_skip_entry (m : Dict) (prev payment : Int) (k : String)
    (v : PyVal) (hwfb : wfLedger m = true) (_hprev : 0 ≤ prev)
    (_hpay : 0 ≤ payment)
    (hk : k ∈ monthOrder) (hv : dget m k = some v) (hnv : normedEntry v)
    (hdz : entryDue m k = 0) :
    ∃ m' prev2 rem,
      apply_payment_to_student_months_and_prev (some m) prev payment =
        .ok (m', prev2, rem) ∧ dget m' k = dget m k := by
  have hwf : wfKeys monthOrder m := wfKeys_of_wfLedger hwfb
  have hnodup : monthOrder.Nodup := by decide
  obtain ⟨m0, hnorm, hunt0, hkeys0⟩ := normKeys_wf hnodup
    (fun k1 hk1 => by
      obtain ⟨rd, p, d, h1, h2, h3, _, _⟩ := hwf k1 hk1
      exact ⟨rd, p, d, h1, h2, h3⟩)
  have hdue0 : ∀ k1 ∈ monthOrder, entryDue m0 k1 = entryDue m k1 := by
    intro k1 hk1
    obtain ⟨rd', h1, _, h3, _⟩ := hkeys0 k1 hk1
    exact entryDue_eval h1 h3
  have hwf0 : wfKeys monthOrder m0 := by
    intro k1 hk1
    obtain ⟨rd', h1, h2, h3, _⟩ := hkeys0 k1 hk1
    obtain ⟨rd, p, d, hg, hp, hd, hpn, hdn⟩ := hwf k1 hk1
    refine ⟨rd', entryPaid m k1, entryDue m k1, h1, h2, h3, ?_, ?_⟩
    · rw [entryPaid_eval hg hp]; exact hpn
    · rw [entryDue_eval hg hd]; exact hdn
  have hmn1 : min payment prev ≤ payment := min_le_left _ _
  obtain ⟨m', r', hrun, _, _, _, _, hkeys⟩ :=
    applyLoop_spec hnodup hwf0 (by omega : (0:Int) ≤ payment - min payment prev)
  have h1 : dget m0 k = dget m k := normKeys_preserve_normed hv hnv hnorm
  have h2 : dget m' k = dget m0 k := by
    refine (hkeys k hk).2.2.2 ?_
    rw [hdue0 k hk]
    exact hdz
  refine ⟨m', prev - min payment prev, r', ?_, h2.trans h1⟩
  show (ensure_months_normalized (some m) >>= fun mm =>
    applyLoop monthOrder mm (payment - min payment prev) >>= fun mr =>
    .ok (mr.1, prev - min payment prev, mr.2)) = _
  rw [show ensure_months_normalized (some m) = .ok m0 from hnorm, exc_ok_bind,
    hrun, exc_ok_bind]

/-- C1: for every ledger whose 13 entries have non-negative integer
`paid`/`due`, every `priorDue ≥ 0` and `payment ≥ 0`, the allocator returns
`(newLedger, newPriorDue, unallocatedRemainder)` with
`sum(paid increase) + (priorDue - newPriorDue) + remainder = payment`, and no
resulting `due` nor the new prior due is negative (entries outside the 13
month keys are untouched, so the paid sum over the 13 keys is the sum over
all entries). -/
theorem apply_payment_conservation (m : Dict) (prev payment : Int)
    (hwf : wfLedger m = true) (hprev : 0 ≤ prev) (hpay : 0 ≤ payment) :
    ∃ m' prev2 rem,
      apply_payment_to_student_months_and_prev (some m) prev payment =
        .ok (m', prev2, rem) ∧
      ((monthOrder.map (entryPaid m')).sum - (monthOrder.map (entryPaid m)).sum) +
        (prev - prev2) + rem = payment ∧
      (∀ k ∈ monthOrder, 0 ≤ entryDue m' k) ∧ 0 ≤ prev2 ∧
      (∀ j, j ∉ monthOrder → dget m' j = dget m j) := by
  obtain ⟨m', p2, rem, h1, h2, h3, _, _, _, h7, h8⟩ :=
    apply_payment_main m prev payment hwf hprev hpay
  exact ⟨m', p2, rem, h1, h2, fun k hk => (h7 k hk).2.2, h3, h8⟩

theorem apply_payment_conservation_witness :
    wfLedger scenarioLedger = true ∧
      (∃ m' prev2 rem,
        apply_payment_to_student_months_and_prev (some scenarioLedger) 50 120 =
          .ok (m', prev2, rem) ∧
        ((monthOrder.map (entryPaid m')).sum -
            (monthOrder.map (entryPaid scenarioLedger)).sum) +
          (50 - prev2) + rem = 120 ∧
        (∀ k ∈ monthOrder, 0 ≤ entryDue m' k) ∧ 0 ≤ prev2 ∧
        (∀ j, j ∉ monthOrder → dget m' j = dget scenarioLedger j)) :=
  ⟨by decide,
    apply_payment_conservation scenarioLedger 50 120 (by decide) (by decide)
      (by decide)⟩

/-- C10: the allocator is monotone on its claimed domain: every entry's
`paid` can only grow, every entry's `due` can only shrink, the prior due can
only shrink, and the remainder lies between 0 and the payment. -/
theorem apply_payment_monotone (m : Dict) (prev payment : Int)
    (hwf : wfLedger m = true) (hprev : 0 ≤ prev) (hpay : 0 ≤ payment) :
    ∃ m' prev2 rem,
      apply_payment_to_student_months_and_prev (some m) prev payment =
        .ok (m', prev2, rem) ∧
      (∀ k ∈ monthOrder, entryPaid m k ≤ entryPaid m' k ∧
        entryDue m' k ≤ entryDue m k) ∧
      (∀ j, j ∉ monthOrder → dget m' j = dget m j) ∧
      prev2 ≤ prev ∧ 0 ≤ rem ∧ rem ≤ payment := by
  obtain ⟨m', p2, rem, h1, _, _, h4, h5, h6, h7, h8⟩ :=
    apply_payment_main m prev payment hwf hprev hpay
  exact ⟨m', p2, rem, h1, fun k hk => ⟨(h7 k hk).1, (h7 k hk).2.1⟩, h8, h4, h5, h6⟩

theorem apply_payment_monotone_witness :
    wfLedger default_month_structure = true ∧
      (∃ m' prev2 rem,
        apply_payment_to_student_months_and_prev (some default_month_structure) 3 7 =
          .ok (m', prev2, rem) ∧
        (∀ k ∈ monthOrder, entryPaid default_month_structure k ≤ entryPaid m' k ∧
          entryDue m' k ≤ entryDue default_month_structure k) ∧
        (∀ j, j ∉ monthOrder → dget m' j = dget default_month_structure j) ∧
        prev2 ≤ 3 ∧ 0 ≤ rem ∧ rem ≤ 7) :=
  ⟨by decide,
    apply_payment_monotone default_month_structure 3 7 (by decide) (by decide)
      (by decide)⟩

/-- C2: allocation order.  (i) the §8 scenario: `priorDue = 50`,
`Jan.due = Feb.due = 100`, payment 120 gives `priorDue = 0`,
`Jan = Partial/paid 70/due 30`, `Feb` untouched, remainder 0;
(ii) exact payoff marks the entry `Paid` with `due = 0`;
(iii) an entry whose `due` is already 0 is skipped untouched — its status is
not reset — for any well-formed ledger. -/
theorem apply_payment_allocation_order :
    (apply_payment_to_student_months_and_prev (some scenarioLedger) 50 120 =
      .ok (scenarioResult, 0, 0)) ∧
    (apply_payment_to_student_months_and_prev (some payoffLedger) 0 100 =
      .ok (payoffResult, 0, 0)) ∧
    (∀ (m : Dict) (prev payment : Int) (k : String) (v : PyVal),
      wfLedger m = true → 0 ≤ prev → 0 ≤ payment → k ∈ monthOrder →
      dget m k = some v → normedEntry v → entryDue m k = 0 →
      ∃ m' prev2 rem,
        apply_payment_to_student_months_and_prev (some m) prev payment =
          .ok (m', prev2, rem) ∧ dget m' k = dget m k) :=
  ⟨by rfl, by rfl,
    fun m prev payment k v h1 h2 h3 h4 h5 h6 h7 =>
      apply_payment_skip_entry m prev payment k v h1 h2 h3 h4 h5 h6 h7⟩

theorem apply_payment_allocation_order_witness :
    ∃ m' prev2 rem,
      apply_payment_to_student_months_and_prev (some scenarioLedger) 50 120 =
        .ok (m', prev2, rem) ∧ dget m' "Mar" = dget scenarioLedger "Mar" :=
  apply_payment_allocation_order.2.2 scenarioLedger 50 120 "Mar" zeroRec
    (by decide) (by decide) (by decide) (by decide) (by rfl) normedEntry_zeroRec
    (by rfl)

theorem normEntry_ok_dict {m m1 : Dict} {k : String} {rd : List (String × PyVal)}
    (hg : dget m k = some (.vdict rd)) (h : normEntry m k = .ok m1) :
    ∃ p d, m1 = dset m k (.vdict (dset (dset (dset rd "status"
      ((dget rd "status").getD (.vstr "Due"))) "paid" (.vint p)) "due" (.vint d))) := by
  rw [normEntry_of_dict hg] at h
  cases hp : coerceIntOr0 ((dget rd "paid").getD (.vint 0)) with
  | error e => rw [hp, exc_error_bind] at h; cases h
  | ok p =>
    cases hd : coerceIntOr0 ((dget rd "due").getD (.vint 0)) with
    | error e => rw [hp, exc_ok_bind, hd, exc_error_bind] at h; cases h
    | ok d =>
      rw [hp, exc_ok_bind, hd, exc_ok_bind] at h
      cases h
      exact ⟨p, d, rfl⟩

theorem normKeys_absent {ks : List String} :
    ∀ {m m0 : Dict} {k : String}, dget m k = none → k ∈ ks →
      normKeys ks m = .ok m0 → dget m0 k = some zeroRec := by
  induction ks with
  | nil => intro m m0 k _ hk _; exact absurd hk (List.not_mem_nil k)
  | cons k0 ks ih =>
    intro m m0 k hget hk h
    unfold normKeys at h
    cases h1 : normEntry m k0 with
    | error e => rw [h1, exc_error_bind] at h; cases h
    | ok m1 =>
      rw [h1, exc_ok_bind] at h
      by_cases hkk : k0 = k
      · subst hkk
        rw [normEntry_of_none hget] at h1
        cases h1
        have hz : dget (dset m k0 zeroRec) k0 = some zeroRec := dget_dset_self _ _ _
        exact (normKeys_preserve_normed hz normedEntry_zeroRec h).trans hz
      · have hsame : dget m1 k = dget m k := (normEntry_post h1).1 k (Ne.symm hkk)
        rcases List.mem_cons.mp hk with hk | hk
        · exact absurd hk.symm hkk
        · exact ih (hsame.trans hget) hk h

theorem normKeys_status_default {ks : List String} :
    ∀ {m m0 : Dict} {k : String} {rd : List (String × PyVal)},
      dget m k = some (.vdict rd) → dget rd "status" = none → k ∈ ks →
      normKeys ks m = .ok m0 →
      ∃ rd', dget m0 k = some (.vdict rd') ∧
        dget rd' "status" = some (.vstr "Due") := by
  induction ks with
  | nil => intro m m0 k rd _ _ hk _; exact absurd hk (List.not_mem_nil k)
  | cons k0 ks ih =>
    intro m m0 k rd hget hst hk h
    unfold normKeys at h
    cases h1 : normEntry m k0 with
    | error e => rw [h1, exc_error_bind] at h; cases h
    | ok m1 =>
      rw [h1, exc_ok_bind] at h
      by_cases hkk : k0 = k
      · subst hkk
        obtain ⟨p, d, rfl⟩ := normEntry_ok_dict hget h1
        rw [hst] at *
        have hz : dget (dset m k0 (.vdict (dset (dset (dset rd "status"
            ((none : Option PyVal).getD (.vstr "Due"))) "paid" (.vint p)) "due"
            (.vint d)))) k0 = some (.vdict (dset (dset (dset rd "status"
            (.vstr "Due")) "paid" (.vint p)) "due" (.vint d))) := dget_dset_self _ _ _
        have hsdue : dget (dset (dset (dset rd "status" (.vstr "Due")) "paid"
            (.vint p)) "due" (.vint d)) "status" = some (.vstr "Due") := by
          rw [dget_dset_ne _ _ _ _ (by decide), dget_dset_ne _ _ _ _ (by decide),
            dget_dset_self]
        have hnormed : normedEntry (.vdict (dset (dset (dset rd "status"
            (.vstr "Due")) "paid" (.vint p)) "due" (.vint d))) := by
          refine ⟨_, rfl, ⟨_, hsdue⟩, ⟨p, ?_⟩, ⟨d, ?_⟩⟩
          · rw [dget_dset_ne _ _ _ _ (by decide), dget_dset_self]
          · rw [dget_dset_self]
        exact ⟨_, (normKeys_preserve_normed hz hnormed h).trans hz, hsdue⟩
      · have hsame : dget m1 k = dget m k := (normEntry_post h1).1 k (Ne.symm hkk)
        rcases List.mem_cons.mp hk with hk | hk
        · exact absurd hk.symm hkk
        · exact ih (hsame.trans hget) hst hk h

/-- C6 counterexample: `ensure_months_normalized` does not return "exactly
the 13 required keys with non-negative integer paid/due, defaulting to 0
when coercion fails".  On `c6Input` it returns 14 keys and keeps the
negative `paid = -5`; and on a `paid` value that fails integer coercion it
raises `ValueError` instead of defaulting to 0. -/
theorem ensure_months_normalized_not_as_claimed :
    ensure_months_normalized (some c6Input) = .ok c6Output ∧
    c6Output.length = 14 ∧
    entryPaid c6Output "Jan" = -5 ∧
    ensure_months_normalized (some [("Jan", .vdict [("paid", .vstr "x")])]) =
      .error "ValueError" :=
  ⟨by rfl, by rfl, by rfl, by rfl⟩

/-- C6 (amended): whenever `ensure_months_normalized` succeeds, the result
contains at least the 13 required keys, each of those bound to a record with
a `status` binding (defaulting to `"Due"` when the input entry was missing,
non-record, or had no status) and integer `paid`/`due` bindings; keys
outside the 13 are preserved unchanged.  Coercion failures on a required
entry's truthy non-numeric `paid`/`due` raise instead of defaulting, extra
keys survive, and negative integers are kept, which is what the
counterexample shows. -/
theorem ensure_months_normalized_shape (months : Option Dict) (m' : Dict)
    (h : ensure_months_normalized months = .ok m') :
    (∀ k ∈ monthOrder, ∃ v, dget m' k = some v ∧ normedEntry v) ∧
    (∀ j, j ∉ monthOrder → dget m' j = dget (months.getD []) j) ∧
    (∀ k ∈ monthOrder, dget (months.getD []) k = none → dget m' k = some zeroRec) ∧
    (∀ k ∈ monthOrder, ∀ rd, dget (months.getD []) k = some (.vdict rd) →
      dget rd "status" = none →
      ∃ rd', dget m' k = some (.vdict rd') ∧
        dget rd' "status" = some (.vstr "Due")) := by
  have hpost := @normKeys_post monthOrder (months.getD []) m' h
  refine ⟨hpost.2, hpost.1, ?_, ?_⟩
  · intro k hk hnone
    exact normKeys_absent hnone hk h
  · intro k hk rd hrd hst
    exact normKeys_status_default hrd hst hk h

theorem ensure_months_normalized_shape_witness :
    ∃ v, dget c6Output "Annual" = some v ∧ normedEntry v :=
  (ensure_months_normalized_shape (some c6Input) c6Output
    (by rfl)).1 "Annual" (by decide)

example : get_previous_session_name "2024_25" = some "2023_24" := by rfl

example : get_previous_session_name "2030_31" = some "2029_30" := by rfl

example : get_previous_session_name "2024" = none := by rfl

example : get_previous_session_name "a_b_c" = none := by rfl

example : get_previous_session_name "abcd_25" = none := by rfl

example : get_previous_session_name "2024_99" = some "2023_24" := by rfl

theorem pySplit_no_sep (sep : Char) :
    ∀ (a : List Char), sep ∉ a → pySplit sep a = [a] := by
  intro a
  induction a with
  | nil => intro _; rfl
  | cons c cs ih =>
    intro h
    have hc : ¬c = sep := fun hh => h (hh ▸ List.mem_cons_self _ _)
    have hcs : sep ∉ cs := fun hh => h (List.mem_cons_of_mem _ hh)
    simp only [pySplit, if_neg hc, ih hcs]

theorem pySplit_append_sep (sep : Char) :
    ∀ (a b : List Char), sep ∉ a →
      pySplit sep (a ++ sep :: b) = a :: pySplit sep b := by
  intro a b
  induction a with
  | nil => intro _; simp [pySplit]
  | cons c cs ih =>
    intro h
    have hc : ¬c = sep := fun hh => h (hh ▸ List.mem_cons_self _ _)
    have hcs : sep ∉ cs := fun hh => h (List.mem_cons_of_mem _ hh)
    simp only [List.cons_append, pySplit, if_neg hc, List.append_eq, ih hcs]

theorem string_mk_data (s : String) : String.mk s.data = s := rfl

theorem string_append_data (s t : String) : (s ++ t).data = s.data ++ t.data := rfl

/-- C5 counterexample: `"2024_99"` has numeric two-token form, but the code
maps it to `"2023_24"`, not to `"2023_98"` as "decrement both components"
demands — the end token is never even parsed. -/
theorem get_previous_session_name_ignores_end :
    get_previous_session_name "2024_99" = some "2023_24" ∧
      some ("2023_24" : String) ≠ some ("2023_98" : String) :=
  ⟨by rfl, by decide⟩

/-- C5 (amended): the previous-session identifier is built from the start
token alone: its start component is `start - 1` and its end component is the
decimal representation of `start` with the first two characters sliced off;
the end token is ignored entirely.  On consecutive-year identifiers with
4-digit start years this coincides with decrementing both components; in
particular `2024_25 ↦ 2023_24` and `2030_31 ↦ 2029_30`. -/
theorem get_previous_session_name_spec :
    (get_previous_session_name "2024_25" = some "2023_24" ∧
     get_previous_session_name "2030_31" = some "2029_30") ∧
    (∀ (s t : String) (n : Int), '_' ∉ s.data → '_' ∉ t.data →
      pyIntOfString s = some n →
      get_previous_session_name (s ++ "_" ++ t) =
        some (pyIntRepr (n - 1) ++ "_" ++ pyStrDrop (pyIntRepr (n - 1 + 1)) 2)) := by
  refine ⟨⟨by rfl, by rfl⟩, ?_⟩
  intro s t n hs ht hparse
  have hdata : (s ++ "_" ++ t).data = s.data ++ '_' :: t.data := by
    rw [string_append_data, string_append_data, List.append_assoc]
    rfl
  unfold get_previous_session_name
  rw [hdata, pySplit_append_sep '_' s.data t.data hs, pySplit_no_sep '_' t.data ht]
  simp only [List.map_cons, List.map_nil, string_mk_data, hparse]

theorem get_previous_session_name_spec_witness :
    get_previous_session_name ("2024" ++ "_" ++ "25") =
      some (pyIntRepr ((2024 : Int) - 1) ++ "_" ++
        pyStrDrop (pyIntRepr ((2024 : Int) - 1 + 1)) 2) :=
  get_previous_session_name_spec.2 "2024" "25" 2024 (by decide) (by decide) (by rfl)

theorem exc_bind_ok_inv {α β : Type} {e : Except String α} {f : α → Except String β}
    {b : β} (h : (e >>= f) = .ok b) : ∃ a, e = .ok a ∧ f a = .ok b := by
  cases e with
  | error s => rw [exc_error_bind] at h; cases h
  | ok a => rw [exc_ok_bind] at h; exact ⟨a, rfl, h⟩

theorem dget_none_append {a : Dict} {k : String} (b : Dict) (h : dget a k = none) :
    dget (a ++ b) k = dget b k := by
  induction a with
  | nil => rfl
  | cons kv tl ih =>
    obtain ⟨k', v'⟩ := kv
    by_cases hk : k' = k
    · rw [dget, if_pos hk] at h; cases h
    · rw [dget, if_neg hk] at h
      rw [List.cons_append, dget, if_neg hk]
      exact ih h

theorem dset_append_of_none {a : Dict} {k : String} {v : PyVal}
    (h : dget a k = none) : dset a k v = a ++ [(k, v)] := by
  induction a with
  | nil => rfl
  | cons kv tl ih =>
    obtain ⟨k', v'⟩ := kv
    by_cases hk : k' = k
    · rw [dget, if_pos hk] at h; cases h
    · rw [dget, if_neg hk] at h
      rw [dset, if_neg hk, List.cons_append, ih h]

theorem sumDueVals_cons_dict (k : String) (rd tl : List (String × PyVal)) :
    sumDueVals ((k, .vdict rd) :: tl) =
      (coerceIntOr0 ((dget rd "due").getD (.vint 0)) >>= fun d =>
        sumDueVals tl >>= fun s => .ok (d + s)) := rfl

theorem sumDueVals_append {a b : Dict} {x y : Int}
    (ha : sumDueVals a = .ok x) (hb : sumDueVals b = .ok y) :
    sumDueVals (a ++ b) = .ok (x + y) := by
  induction a generalizing x with
  | nil =>
    cases ha
    rw [List.nil_append, hb, Int.zero_add]
  | cons kv tl ih =>
    obtain ⟨k, v⟩ := kv
    cases v
    case vdict rd =>
      rw [sumDueVals_cons_dict] at ha
      obtain ⟨d, hd, hrest⟩ := exc_bind_ok_inv ha
      obtain ⟨s, hs, hval⟩ := exc_bind_ok_inv hrest
      cases hval
      rw [List.cons_append, sumDueVals_cons_dict, hd, exc_ok_bind, ih hs,
        exc_ok_bind, Int.add_assoc]
    all_goals (unfold sumDueVals at ha; cases ha)

theorem sumDueVals_single {rd : List (String × PyVal)} (k : String) {dv : Int}
    (h : coerceIntOr0 ((dget rd "due").getD (.vint 0)) = .ok dv) :
    sumDueVals [(k, .vdict rd)] = .ok dv := by
  rw [sumDueVals_cons_dict, h, exc_ok_bind,
    show sumDueVals [] = .ok 0 from rfl, exc_ok_bind, Int.add_zero]

theorem normGo_cons_dict (k : String) (rd : List (String × PyVal))
    (rest : List (String × PyVal)) (out : Dict) :
    normalize_months_structure_go ((k, .vdict rd) :: rest) out =
      (coerceIntOr0 ((dget rd "paid").getD (.vint 0)) >>= fun paid =>
        coerceIntOr0 ((dget rd "due").getD (.vint 0)) >>= fun due =>
        normalize_months_structure_go rest (dset out k
          (.vdict [("status", (dget rd "status").getD (.vstr "Due")),
                   ("paid", .vint paid), ("due", .vint due)]))) := rfl

theorem normGo_sum :
    ∀ {rest : List (String × PyVal)} {out : Dict} {s0 : Int},
      (∀ kv ∈ rest, entryOkB kv.2 = true) → (rest.map Prod.fst).Nodup →
      (∀ kv ∈ rest, dget out kv.1 = none) → sumDueVals out = .ok s0 →
      ∃ out', normalize_months_structure_go rest out = .ok out' ∧
        sumDueVals out' = .ok (s0 + (rest.map (fun kv => entryDueVal kv.2)).sum) := by
  intro rest
  induction rest with
  | nil =>
    intro out s0 _ _ _ hsum
    refine ⟨out, rfl, ?_⟩
    rw [List.map_nil, List.sum_nil, Int.add_zero]
    exact hsum
  | cons kv rest ih =>
    obtain ⟨k, v⟩ := kv
    intro out s0 hok hnd hout hsum
    have hndtail : (rest.map Prod.fst).Nodup := by
      rw [List.map_cons] at hnd
      exact (List.nodup_cons.mp hnd).2
    have hknotin : k ∉ rest.map Prod.fst := by
      rw [List.map_cons] at hnd
      exact (List.nodup_cons.mp hnd).1
    have houthead : dget out k = none := hout (k, v) (List.mem_cons_self _ _)
    have houttail1 : ∀ (rec : PyVal) kv1, kv1 ∈ rest →
        dget (out ++ [(k, rec)]) kv1.1 = none := by
      intro rec kv1 hkv1
      have hk1 : kv1.1 ≠ k := fun hh =>
        hknotin (hh ▸ List.mem_map_of_mem Prod.fst hkv1)
      rw [dget_none_append _ (hout kv1 (List.mem_cons_of_mem _ hkv1))]
      rw [dget, if_neg (Ne.symm hk1)]
      rfl
    have hoktail : ∀ kv1 ∈ rest, entryOkB kv1.2 = true :=
      fun kv1 hkv1 => hok kv1 (List.mem_cons_of_mem _ hkv1)
    cases v
    case vdict rd =>
      have hokv := hok (k, .vdict rd) (List.mem_cons_self _ _)
      simp only [entryOkB, Bool.and_eq_true] at hokv
      obtain ⟨hokp, hokd⟩ := hokv
      have hpco : ∃ pv, coerceIntOr0 ((dget rd "paid").getD (.vint 0)) = .ok pv := by
        cases hpg : dget rd "paid" with
        | none => exact ⟨0, coerceIntOr0_vint 0⟩
        | some pv0 =>
          rw [hpg] at hokp
          cases pv0
          case vint p => exact ⟨p, coerceIntOr0_vint p⟩
          all_goals cases hokp
      have hdco : coerceIntOr0 ((dget rd "due").getD (.vint 0)) =
          .ok (entryDueVal (.vdict rd)) := by
        cases hdg : dget rd "due" with
        | none =>
          have he : entryDueVal (.vdict rd) = 0 := by simp [entryDueVal, hdg]
          rw [he]
          exact coerceIntOr0_vint 0
        | some dv0 =>
          rw [hdg] at hokd
          cases dv0
          case vint d =>
            have he : entryDueVal (.vdict rd) = d := by simp [entryDueVal, hdg]
            rw [he]
            exact coerceIntOr0_vint d
          all_goals cases hokd
      obtain ⟨pv, hpv⟩ := hpco
      have hnewdue : coerceIntOr0 ((dget
          [("status", (dget rd "status").getD (.vstr "Due")),
           ("paid", .vint pv), ("due", .vint (entryDueVal (.vdict rd)))] "due").getD
          (.vint 0)) = .ok (entryDueVal (.vdict rd)) := by
        rw [show dget [("status", (dget rd "status").getD (.vstr "Due")),
          ("paid", .vint pv), ("due", .vint (entryDueVal (.vdict rd)))] "due" =
            some (.vint (entryDueVal (.vdict rd))) from rfl]
        exact coerceIntOr0_vint _
      have hsum1 : sumDueVals (out ++ [(k, .vdict
          [("status", (dget rd "status").getD (.vstr "Due")),
           ("paid", .vint pv), ("due", .vint (entryDueVal (.vdict rd)))])]) =
          .ok (s0 + entryDueVal (.vdict rd)) :=
        sumDueVals_append hsum (sumDueVals_single k hnewdue)
      obtain ⟨out', hgo, hsum'⟩ := ih hoktail hndtail (houttail1 _) hsum1
      refine ⟨out', ?_, ?_⟩
      · rw [normGo_cons_dict, hpv, exc_ok_bind, hdco, exc_ok_bind,
          dset_append_of_none houthead]
        exact hgo
      · rw [hsum', List.map_cons, List.sum_cons, Int.add_assoc]
    case vnone =>
      have hsum1 : sumDueVals (out ++ [(k, zeroRec)]) = .ok (s0 + 0) :=
        sumDueVals_append hsum (sumDueVals_single k (coerceIntOr0_vint 0))
      obtain ⟨out', hgo, hsum'⟩ := ih hoktail hndtail (houttail1 _) hsum1
      refine ⟨out', ?_, ?_⟩
      · rw [show normalize_months_structure_go ((k, .vnone) :: rest) out =
          normalize_months_structure_go rest (dset out k zeroRec) from rfl,
          dset_append_of_none houthead]
        exact hgo
      · rw [hsum', List.map_cons, List.sum_cons,
          show entryDueVal .vnone = 0 from rfl, Int.add_assoc]
    all_goals
      have hsum1 : sumDueVals (out ++ [(k, zeroRec)]) = .ok (s0 + 0) :=
        sumDueVals_append hsum (sumDueVals_single k (coerceIntOr0_vint 0))
      obtain ⟨out', hgo, hsum'⟩ := ih hoktail hndtail (houttail1 _) hsum1
      rw [← dset_append_of_none houthead] at hgo
      refine ⟨out', hgo, ?_⟩
      rw [hsum', List.map_cons, List.sum_cons]
      simp only [entryDueVal]
      norm_num

theorem calc_carry_eq_dueSum {m : Dict} (h : dueValsOk m = true)
    (hnd : (m.map Prod.fst).Nodup) :
    calc_carry_forward_amount (some m) = .ok (dueSum m) := by
  cases m with
  | nil => rfl
  | cons kv tl =>
    obtain ⟨out', hgo, hsum⟩ := @normGo_sum (kv :: tl) [] 0
      (fun kv1 hkv1 => (List.all_eq_true.mp h) kv1 hkv1) hnd
      (fun kv1 _ => rfl) rfl
    show (normalize_months_structure_go (kv :: tl) [] >>= fun mn =>
      sumDueVals mn) = Except.ok (dueSum (kv :: tl))
    rw [hgo, exc_ok_bind, hsum]
    unfold dueSum
    rw [Int.zero_add]

/-- C4: for every previous-session student whose ledger entries carry
integer (or absent) `paid`/`due` fields under distinct keys, the
carry-forward amount is exactly the sum of the `due` fields across the
ledger's entries, and the inserted student keeps `name`, `father`,
`class_name`, `roll`, gets `previous_due` equal to that sum, `advance = 0`,
a fresh all-`{Due, 0, 0}` 13-entry ledger, and `annual_charge = 0`; the
student's old `previous_due` has no influence on the result. -/
theorem carried_student_spec (s : StudentRow) (h : dueValsOk s.months = true)
    (hnd : (s.months.map Prod.fst).Nodup) :
    (calc_carry_forward_amount (some s.months) = .ok (dueSum s.months) ∧
      carried_student s = .ok (carriedExpected s)) ∧
    ∀ pd : Int, carried_student { s with previous_due := pd } = carried_student s := by
  have hcarry := calc_carry_eq_dueSum h hnd
  refine ⟨⟨hcarry, ?_⟩, fun pd => rfl⟩
  unfold carried_student
  rw [hcarry, exc_ok_bind,
    show ensure_months_normalized (some default_month_structure) =
      .ok default_month_structure from rfl, exc_ok_bind]
  rfl

theorem carried_student_spec_witness :
    calc_carry_forward_amount (some carryStudent.months) =
        .ok (dueSum carryStudent.months) ∧
      carried_student carryStudent = .ok (carriedExpected carryStudent) :=
  (carried_student_spec carryStudent (by decide) (by decide)).1

example : dueSum carryStudent.months = 250 := by rfl

/-- C9: carry-forward seeding silently no-ops — it returns the target store
unchanged and raises nothing — whenever (i) the session name does not split
into exactly two tokens, (ii) it splits into two tokens whose year tokens
are non-numeric (the first failing `int()` already aborts; the second is
never parsed), or (iii) the computed previous session has no existing
store. -/
theorem copy_students_from_previous_noop :
    (∀ (name : String) (ex : List String) (f : String → List StudentRow)
      (st : List StudentRow), get_previous_session_name name = none →
      copy_students_from_previous name ex f st = .ok st) ∧
    (∀ (name prev : String) (ex : List String) (f : String → List StudentRow)
      (st : List StudentRow), get_previous_session_name name = some prev →
      prev ∉ ex → copy_students_from_previous name ex f st = .ok st) ∧
    (∀ name : String, (pySplit '_' name.data).length ≠ 2 →
      get_previous_session_name name = none) ∧
    (∀ (name : String) (a b : List Char), pySplit '_' name.data = [a, b] →
      pyIntOfString (String.mk a) = none → pyIntOfString (String.mk b) = none →
      get_previous_session_name name = none) := by
  refine ⟨?_, ?_, ?_, ?_⟩
  · intro name ex f st h
    unfold copy_students_from_previous
    rw [h]
  · intro name prev ex f st h hmem
    unfold copy_students_from_previous
    rw [h]
    exact if_neg hmem
  · intro name hlen
    unfold get_previous_session_name
    cases hsp : pySplit '_' name.data with
    | nil => rfl
    | cons a l =>
      cases l with
      | nil => rfl
      | cons b l2 =>
        cases l2 with
        | nil => rw [hsp] at hlen; exact absurd rfl hlen
        | cons c l3 => rfl
  · intro name a b hsp hpa _hpb
    unfold get_previous_session_name
    rw [hsp]
    simp only [List.map_cons, List.map_nil, hpa]

theorem copy_students_from_previous_noop_witness :
    copy_students_from_previous "badsession" [] (fun _ => []) [] = .ok [] :=
  copy_students_from_previous_noop.1 "badsession" [] (fun _ => []) [] (by rfl)

theorem ofDigitsRev_digitsRevF : ∀ (f n : Nat), n ≤ f →
    ofDigitsRev (digitsRevF f n) = n := by
  intro f
  induction f with
  | zero =>
    intro n hn
    have : n = 0 := Nat.le_zero.mp hn
    subst this
    rfl
  | succ f ih =>
    intro n hn
    by_cases h0 : n = 0
    · subst h0; rfl
    · have hdiv : n / 10 ≤ f := by
        have := Nat.div_lt_self (Nat.pos_of_ne_zero h0) (by omega : 1 < 10)
        omega
      unfold digitsRevF
      rw [if_neg h0]
      unfold ofDigitsRev
      rw [ih (n / 10) hdiv]
      omega

theorem digitsRevF_lt : ∀ (f n : Nat), ∀ d ∈ digitsRevF f n, d < 10 := by
  intro f
  induction f with
  | zero => intro n d hd; cases hd
  | succ f ih =>
    intro n d hd
    unfold digitsRevF at hd
    by_cases h0 : n = 0
    · rw [if_pos h0] at hd; cases hd
    · rw [if_neg h0] at hd
      rcases List.mem_cons.mp hd with hd | hd
      · subst hd; exact Nat.mod_lt _ (by omega)
      · exact ih _ d hd

theorem ofDigitsRev_digitsOf (n : Nat) : ofDigitsRev (digitsOf n) = n := by
  unfold digitsOf
  by_cases h0 : n = 0
  · rw [if_pos h0, h0]; rfl
  · rw [if_neg h0]; exact ofDigitsRev_digitsRevF n n (le_refl n)

theorem digitsOf_lt (n : Nat) : ∀ d ∈ digitsOf n, d < 10 := by
  unfold digitsOf
  by_cases h0 : n = 0
  · rw [if_pos h0]
    intro d hd
    rcases List.mem_cons.mp hd with hd | hd
    · subst hd; omega
    · cases hd
  · rw [if_neg h0]; exact digitsRevF_lt n n

theorem charToDigit_digitChar : ∀ d < 10, charToDigit (Nat.digitChar d) = d := by
  decide

theorem digitChar_ne_dash : ∀ d < 10, Nat.digitChar d ≠ '-' := by
  decide

theorem ofDigitsRev_append_zeros : ∀ (l : List Nat) (a : Nat),
    ofDigitsRev (l ++ List.replicate a 0) = ofDigitsRev l := by
  intro l
  induction l with
  | nil =>
    intro a
    induction a with
    | zero => rfl
    | succ a iha =>
      rw [List.nil_append] at iha ⊢
      rw [List.replicate_succ]
      unfold ofDigitsRev
      rw [iha]
      rfl
  | cons d ds ih =>
    intro a
    rw [List.cons_append]
    unfold ofDigitsRev
    rw [ih a]

theorem map_charToDigit_digitChar {l : List Nat} (h : ∀ d ∈ l, d < 10) :
    (l.map Nat.digitChar).map charToDigit = l := by
  induction l with
  | nil => rfl
  | cons d ds ih =>
    rw [List.map_cons, List.map_cons,
      charToDigit_digitChar d (h d (List.mem_cons_self _ _)),
      ih (fun x hx => h x (List.mem_cons_of_mem _ hx))]

theorem pad6Chars_val (n : Nat) :
    ofDigitsRev (((pad6Chars n).map charToDigit).reverse) = n := by
  unfold pad6Chars
  rw [List.map_append, List.map_replicate,
    show charToDigit '0' = 0 from rfl,
    map_charToDigit_digitChar (fun d hd => digitsOf_lt n d (List.mem_reverse.mp hd)),
    List.reverse_append, List.reverse_reverse, List.reverse_replicate,
    ofDigitsRev_append_zeros]
  exact ofDigitsRev_digitsOf n

theorem pad6Chars_inj {n1 n2 : Nat} (h : pad6Chars n1 = pad6Chars n2) : n1 = n2 := by
  rw [← pad6Chars_val n1, ← pad6Chars_val n2, h]

theorem pad6Chars_ne_dash (n : Nat) : ∀ c ∈ pad6Chars n, c ≠ '-' := by
  intro c hc
  unfold pad6Chars at hc
  rcases List.mem_append.mp hc with hc | hc
  · rw [List.eq_of_mem_replicate hc]; decide
  · obtain ⟨d, hd, rfl⟩ := List.mem_map.mp hc
    exact digitChar_ne_dash d (digitsOf_lt n d (List.mem_reverse.mp hd))

theorem sep_tail_inj : ∀ (b1 b2 a1 a2 : List Char),
    '-' ∉ b1 → '-' ∉ b2 → b1 ++ '-' :: a1 = b2 ++ '-' :: a2 →
    b1 = b2 ∧ a1 = a2 := by
  intro b1
  induction b1 with
  | nil =>
    intro b2 a1 a2 _ hb2 heq
    cases b2 with
    | nil =>
      rw [List.nil_append, List.nil_append] at heq
      injection heq with _ h2
      exact ⟨rfl, h2⟩
    | cons c b2' =>
      rw [List.nil_append, List.cons_append] at heq
      injection heq with h1 _
      exact absurd (h1 ▸ List.mem_cons_self c b2') hb2
  | cons c b1' ih =>
    intro b2 a1 a2 hb1 hb2 heq
    cases b2 with
    | nil =>
      rw [List.cons_append, List.nil_append] at heq
      injection heq with h1 _
      exact absurd (h1 ▸ List.mem_cons_self c b1') hb1
    | cons c2 b2' =>
      rw [List.cons_append, List.cons_append] at heq
      injection heq with h1 h2
      obtain ⟨hb, ha⟩ := ih b2' a1 a2
        (fun hh => hb1 (List.mem_cons_of_mem _ hh))
        (fun hh => hb2 (List.mem_cons_of_mem _ hh)) h2
      exact ⟨by rw [h1, hb], ha⟩

theorem mkReceiptNumber_data (s c r : String) (q : Nat) :
    (mkReceiptNumber s c r q).data =
      (s.data ++ '-' :: c.data ++ '-' :: r.data) ++ '-' :: pad6Chars q := by
  unfold mkReceiptNumber pyFormat06
  rw [string_append_data, string_append_data, string_append_data,
    string_append_data, string_append_data]
  simp [List.append_assoc]

theorem mkReceiptNumber_seq_inj {s1 c1 r1 s2 c2 r2 : String} {q1 q2 : Nat}
    (h : mkReceiptNumber s1 c1 r1 q1 = mkReceiptNumber s2 c2 r2 q2) : q1 = q2 := by
  have hd := congrArg String.data h
  rw [mkReceiptNumber_data, mkReceiptNumber_data] at hd
  have hrev := congrArg List.reverse hd
  simp only [List.reverse_append, List.reverse_cons, List.append_assoc,
    List.singleton_append] at hrev
  have hsep := sep_tail_inj _ _ _ _
    (fun hh => pad6Chars_ne_dash q1 '-' (List.mem_reverse.mp hh) rfl)
    (fun hh => pad6Chars_ne_dash q2 '-' (List.mem_reverse.mp hh) rfl) hrev
  exact pad6Chars_inj (List.reverse_injective hsep.1)

example : pyFormat06 1 = "000001" := by rfl

example : mkReceiptNumber "2024_25" "5" "1" 1 = "2024_25-5-1-000001" := by rfl

/-- C3 counterexample: two distinct receipts (distinct keys), created in the
same store with a bulk deletion in between, get the SAME receipt number —
deleting receipts resets the id-derived sequence. -/
theorem receipt_numbers_repeat_after_delete :
    (runOps "2024_25"
      [.addReceipt cexPayload1, .deleteAllReceipts, .addReceipt cexPayload2]
      emptyStore).2 = ["2024_25-5-1-000001", "2024_25-5-1-000001"] ∧
    ¬ (["2024_25-5-1-000001", "2024_25-5-1-000001"] : List String).Nodup ∧
    cexPayload1.receiptKey ≠ cexPayload2.receiptKey :=
  ⟨by rfl, by decide, by decide⟩

theorem find?_none_append {α : Type} {q : α → Bool} {l1 : List α} (l2 : List α)
    (h : l1.find? q = none) : (l1 ++ l2).find? q = l2.find? q := by
  induction l1 with
  | nil => rfl
  | cons a l ih =>
    rw [List.find?_cons] at h
    cases hq : q a with
    | true => rw [hq] at h; cases h
    | false =>
      rw [hq] at h
      rw [List.cons_append, List.find?_cons, hq]
      exact ih h

theorem add_receipt_ok_inv {sname : String} {p : Payload} {st st1 : Store}
    {n1 : String} (h : add_receipt sname p st = .ok (st1, n1)) :
    (∃ na, addReceiptPrelude p = .ok na) ∧
      ((st1 = st ∧ ∃ r, st.receipts.find?
          (fun r0 => r0.receipt_key == p.receiptKey) = some r ∧
          n1 = r.receipt_number) ∨
        (st.receipts.find? (fun r0 => r0.receipt_key == p.receiptKey) = none ∧
          n1 = mkReceiptNumber sname p.class_name p.roll (nextSeq st.receipts) ∧
          ∃ row : ReceiptRow, st1.receipts = st.receipts ++ [row] ∧
            row.id = nextSeq st.receipts ∧ row.receipt_key = p.receiptKey ∧
            row.receipt_number = n1)) := by
  unfold add_receipt at h
  obtain ⟨na, hna, h⟩ := exc_bind_ok_inv h
  refine ⟨⟨na, hna⟩, ?_⟩
  cases hfind : st.receipts.find? (fun r0 => r0.receipt_key == p.receiptKey) with
  | some r =>
    rw [hfind] at h
    cases h
    exact Or.inl ⟨rfl, r, rfl, rfl⟩
  | none =>
    rw [hfind] at h
    cases hstu : st.students.find? (fun s => s.class_name == p.class_name &&
        s.roll == p.roll) with
    | none =>
      rw [hstu] at h
      cases h
      exact Or.inr ⟨rfl, rfl, _, rfl, rfl, rfl, rfl⟩
    | some s =>
      rw [hstu] at h
      obtain ⟨res, _, h⟩ := exc_bind_ok_inv h
      obtain ⟨ac, _, h⟩ := exc_bind_ok_inv h
      cases h
      exact Or.inr ⟨rfl, rfl, _, rfl, rfl, rfl, rfl⟩

/-- C8 counterexample: the months normalization runs BEFORE the duplicate
check, so replaying a `receiptKey` that is already in the store with a
malformed months payload raises `ValueError` instead of returning the
existing receipt's number. -/
theorem add_receipt_duplicate_not_total :
    (c8Store.receipts.find?
      (fun r0 => r0.receipt_key == c8BadPayload.receiptKey)).isSome = true ∧
    add_receipt "2024_25" c8BadPayload c8Store = .error "ValueError" :=
  ⟨by rfl, by rfl⟩

/-- C8 (amended): for every store and every payload whose months
normalization succeeds, a `receiptKey` already present in the store makes
`add_receipt` return that receipt's number with the store COMPLETELY
unchanged (no new receipt row, every student's ledger and `previous_due`
untouched); and a fresh key that is submitted twice yields the same number
both times with exactly one matching receipt row in the store. -/
theorem add_receipt_idempotent :
    (∀ (sname : String) (st : Store) (p : Payload) (na : Dict × Int)
      (r : ReceiptRow), addReceiptPrelude p = .ok na →
      st.receipts.find? (fun r0 => r0.receipt_key == p.receiptKey) = some r →
      add_receipt sname p st = .ok (st, r.receipt_number)) ∧
    (∀ (sname : String) (st : Store) (p : Payload) (st1 : Store) (n1 : String),
      st.receipts.find? (fun r0 => r0.receipt_key == p.receiptKey) = none →
      add_receipt sname p st = .ok (st1, n1) →
      add_receipt sname p st1 = .ok (st1, n1) ∧
        (st1.receipts.filter
          (fun r0 => r0.receipt_key == p.receiptKey)).length = 1) := by
  constructor
  · intro sname st p na r hpre hfind
    unfold add_receipt
    rw [hpre, exc_ok_bind, hfind]
  · intro sname st p st1 n1 hfind h
    obtain ⟨⟨na, hpre⟩, hcases⟩ := add_receipt_ok_inv h
    rcases hcases with ⟨_, r, hr, _⟩ | ⟨_, _, row, hrows, _, hkey, hnum⟩
    · rw [hfind] at hr; cases hr
    · have hq : (row.receipt_key == p.receiptKey) = true := by
        rw [hkey]; exact beq_self_eq_true p.receiptKey
      have hfd : List.find? (fun r0 => r0.receipt_key == p.receiptKey) [row] =
          some row := by
        simp [List.find?_cons, hq]
      constructor
      · unfold add_receipt
        rw [hpre, exc_ok_bind, hrows, find?_none_append _ hfind, hfd]
        show Except.ok (st1, row.receipt_number) = Except.ok (st1, n1)
        rw [hnum]
      · have hfl : List.filter (fun r0 => r0.receipt_key == p.receiptKey) [row] =
            [row] := by
          simp [List.filter_cons, hq]
        rw [hrows, List.filter_append,
          List.filter_eq_nil_iff.mpr (fun a ha => by
            have := List.find?_eq_none.mp hfind a ha
            simpa using this),
          hfl]
        rfl

theorem add_receipt_idempotent_witness :
    add_receipt "2024_25" c8GoodPayload c8Store = .ok (c8Store, c8Row.receipt_number) :=
  add_receipt_idempotent.1 "2024_25" c8Store c8GoodPayload ([], 0) c8Row
    (by rfl) (by rfl)

theorem maxReceiptId_foldr (rs : List ReceiptRow) (b : Nat) :
    rs.foldr (fun r a => max r.id a) b = max (maxReceiptId rs) b := by
  induction rs with
  | nil => rw [show maxReceiptId [] = 0 from rfl, Nat.zero_max]; rfl
  | cons r rs ih =>
    show max r.id (rs.foldr (fun r a => max r.id a) b) = _
    rw [ih, show maxReceiptId (r :: rs) = max r.id (maxReceiptId rs) from rfl,
      Nat.max_assoc]

theorem maxReceiptId_append_single (rs : List ReceiptRow) (row : ReceiptRow) :
    maxReceiptId (rs ++ [row]) = max (maxReceiptId rs) row.id := by
  unfold maxReceiptId
  rw [List.foldr_append]
  have h1 : List.foldr (fun r a => max r.id a) 0 [row] = row.id := by
    show max row.id 0 = row.id
    exact Nat.max_zero row.id
  rw [h1, maxReceiptId_foldr rs row.id]
  rfl

theorem runOps_cons_add (sname : String) (p : Payload) (rest : List StoreOp)
    (st : Store) :
    runOps sname (StoreOp.addReceipt p :: rest) st =
      (match add_receipt sname p st with
       | .error _ => runOps sname rest st
       | .ok (st1, rno) =>
         let out := runOps sname rest st1
         if (st.receipts.find? (fun r => r.receipt_key == p.receiptKey)).isSome then
           out
         else (out.1, rno :: out.2)) := rfl

theorem nextSeq_eq (rs : List ReceiptRow) : nextSeq rs = maxReceiptId rs + 1 := by
  cases rs with
  | nil => rfl
  | cons r rs => rfl

theorem runOps_adds_spec {sname : String} :
    ∀ (ops : List StoreOp) (st : Store),
      (∀ op ∈ ops, ∃ p, op = StoreOp.addReceipt p) →
      ((runOps sname ops st).2.Nodup ∧
        ∀ n ∈ (runOps sname ops st).2, ∃ c r q,
          maxReceiptId st.receipts < q ∧ n = mkReceiptNumber sname c r q) := by
  intro ops
  induction ops with
  | nil =>
    intro st _
    exact ⟨List.nodup_nil, fun n hn => absurd hn (List.not_mem_nil n)⟩
  | cons op rest ih =>
    intro st hops
    obtain ⟨p, rfl⟩ := hops op (List.mem_cons_self _ _)
    have hrest : ∀ op ∈ rest, ∃ p, op = StoreOp.addReceipt p :=
      fun o ho => hops o (List.mem_cons_of_mem _ ho)
    cases hadd : add_receipt sname p st with
    | error e =>
      have heq : runOps sname (.addReceipt p :: rest) st = runOps sname rest st := by
        rw [runOps_cons_add, hadd]
      rw [heq]
      exact ih st hrest
    | ok out =>
      obtain ⟨st1, rno⟩ := out
      obtain ⟨_, hcases⟩ := add_receipt_ok_inv hadd
      cases hdup : (st.receipts.find?
          (fun r => r.receipt_key == p.receiptKey)).isSome with
      | true =>
        have hst1 : st1 = st := by
          rcases hcases with ⟨h1, _⟩ | ⟨hnone, _⟩
          · exact h1
          · rw [hnone] at hdup; cases hdup
        have heq : runOps sname (.addReceipt p :: rest) st =
            runOps sname rest st1 := by
          rw [runOps_cons_add, hadd]
          show (if (st.receipts.find?
              (fun r => r.receipt_key == p.receiptKey)).isSome = true then
            runOps sname rest st1
          else ((runOps sname rest st1).1, rno :: (runOps sname rest st1).2)) = _
          rw [hdup]
          rfl
        rw [heq, hst1]
        exact ih st hrest
      | false =>
        rcases hcases with ⟨_, r, hr, _⟩ | ⟨_, hn1, row, hrows, hrowid, _, _⟩
        · rw [hr] at hdup; cases hdup
        · have hmax1 : maxReceiptId st1.receipts = maxReceiptId st.receipts + 1 := by
            rw [hrows, maxReceiptId_append_single, hrowid, nextSeq_eq,
              Nat.max_eq_right (Nat.le_succ _)]
          have heq : runOps sname (.addReceipt p :: rest) st =
              ((runOps sname rest st1).1, rno :: (runOps sname rest st1).2) := by
            rw [runOps_cons_add, hadd]
            show (if (st.receipts.find?
                (fun r => r.receipt_key == p.receiptKey)).isSome = true then
              runOps sname rest st1
            else ((runOps sname rest st1).1, rno :: (runOps sname rest st1).2)) = _
            rw [hdup]
            rfl
          obtain ⟨ihnd, ihbound⟩ := ih st1 hrest
          rw [heq]
          constructor
          · refine List.nodup_cons.mpr ⟨?_, ihnd⟩
            intro hmem
            obtain ⟨c, r2, q, hq, hn⟩ := ihbound rno hmem
            have hseq : nextSeq st.receipts = q :=
              mkReceiptNumber_seq_inj (hn1 ▸ hn)
            rw [hmax1] at hq
            rw [nextSeq_eq] at hseq
            omega
          · intro n hn
            rcases List.mem_cons.mp hn with hn | hn
            · exact ⟨p.class_name, p.roll, nextSeq st.receipts,
                by rw [nextSeq_eq]; omega, hn ▸ hn1⟩
            · obtain ⟨c, r2, q, hq, hmkn⟩ := ihbound n hn
              refine ⟨c, r2, q, ?_, hmkn⟩
              rw [hmax1] at hq
              omega

/-- C3 (amended): in any sequence of store operations WITHOUT receipt
deletions, any two distinct receipts created by `add_receipt` have distinct
receipt numbers, and the 6-digit sequence component is the highest existing
receipt id plus one, starting at 1 on an empty receipt table.  (With
deletions the sequence resets and numbers repeat, as the counterexample
shows.) -/
theorem receipt_numbers_unique_without_deletion :
    (∀ (sname : String) (ops : List StoreOp) (st : Store),
      (∀ op ∈ ops, ∃ p, op = StoreOp.addReceipt p) →
      ((runOps sname ops st).2).Nodup) ∧
    nextSeq [] = 1 ∧
    (∀ rs : List ReceiptRow, nextSeq rs = maxReceiptId rs + 1) ∧
    (∀ (sname : String) (st : Store) (p : Payload) (st1 : Store) (n1 : String),
      st.receipts.find? (fun r0 => r0.receipt_key == p.receiptKey) = none →
      add_receipt sname p st = .ok (st1, n1) →
      n1 = mkReceiptNumber sname p.class_name p.roll (nextSeq st.receipts)) := by
  refine ⟨?_, rfl, nextSeq_eq, ?_⟩
  · intro sname ops st h
    exact (runOps_adds_spec ops st h).1
  · intro sname st p st1 n1 hfind h
    obtain ⟨_, hcases⟩ := add_receipt_ok_inv h
    rcases hcases with ⟨_, r, hr, _⟩ | ⟨_, hn1, _⟩
    · rw [hfind] at hr; cases hr
    · exact hn1

theorem receipt_numbers_unique_without_deletion_witness :
    ((runOps "2024_25" [.addReceipt cexPayload1, .addReceipt cexPayload2]
      emptyStore).2).Nodup :=
  receipt_numbers_unique_without_deletion.1 "2024_25"
    [.addReceipt cexPayload1, .addReceipt cexPayload2] emptyStore
    (by
      intro op hop
      rcases List.mem_cons.mp hop with rfl | hop
      · exact ⟨cexPayload1, rfl⟩
      · rcases List.mem_cons.mp hop with rfl | hop
        · exact ⟨cexPayload2, rfl⟩
        · cases hop)
